/-
  Verification development for
  `datasets/custom_datasets/instance_coco_custom_dataset_mapper.py`
  (repository Soooo-hong/oneformer_irseg).

  The Python file is glue code over external libraries (pycocotools,
  cv2, detectron2, torch).  We shallowly embed it:

  * pure helper functions (`convert_coco_poly_to_mask`,
    `convert_coco_poly_to_mask_`, `binary_masks_to_polygons`,
    `build_transform_gen`, `_get_texts`, and the annotation-regeneration
    loop inside `__call__`) are translated line by line into Lean
    functions;
  * external library primitives (polygon rasterization, contour
    extraction, the copy-paste augmentation, the geometric transforms,
    detectron2's instance utilities) are abstract function parameters:
    the theorems hold for every instantiation, and witnesses pick
    concrete executable ones;
  * Python floats carrying integral pixel data are modelled as `Int`;
  * the mutable-dict behaviour of `__call__` (deep copy, in-place key
    updates) is modelled with an explicit heap of dictionaries, so that
    non-mutation of the caller's record is a real statement.
-/
import Mathlib

namespace OneformerIrseg

/-! ## Basic data -/

/-- A COCO polygon: the flat list `[x1, y1, x2, y2, ...]` of coordinates.
Coordinates are integral pixel values in the inputs we model. -/
abbrev Poly := List Int

/-- One element of an annotation's `segmentation` list, as classified by
the `isinstance` chain in `convert_coco_poly_to_mask_` (lines 47-56):
a flat list of floats, a list of polygon lists, or a numpy array. -/
inductive SegElem where
  | flat (p : Poly)
  | nested (ps : List Poly)
  | arr (p : Poly)
deriving Repr, DecidableEq

/-- The polygons contributed by one `segmentation` element: the branch
at lines 47-48 appends the flat list itself, the branch at lines 50-52
extends with the nested lists, the branch at lines 53-54 appends the
array converted to a list. -/
def SegElem.polyList : SegElem → List Poly
  | .flat p => [p]
  | .nested ps => ps
  | .arr p => p :: []

/-- A binary mask of shape `(h, w)`: `h` rows of `w` booleans. -/
abbrev Mask := List (List Bool)

/-- A pointwise rasterizer: `rasterFn p h w i j` tells whether pixel
`(i, j)` of the `h × w` rasterization of polygon `p` is set.  This
abstracts `pycocotools.mask.frPyObjects` on a single polygon. -/
abbrev RasterFn := Poly → Nat → Nat → Nat → Nat → Bool

/-- `coco_mask.frPyObjects(polys, h, w)` followed by `coco_mask.decode`
and `.any(dim=2)`: the union over `polys` of the single-polygon
rasterizations, as an `h × w` grid.  `frPyObjects` always rasterizes
onto the requested `h × w` canvas, which this realizes by construction. -/
def decodeUnion (rasterFn : RasterFn) (polys : List Poly) (h w : Nat) : Mask :=
  (List.range h).map fun i => (List.range w).map fun j =>
    polys.any fun p => rasterFn p h w i j

/-- Number of rows of a mask. -/
def Mask.height (m : Mask) : Nat := m.length

/-- Number of columns of a mask (of its first row, as numpy's `.shape`
reports for the rectangular arrays produced here). -/
def Mask.width (m : Mask) : Nat := m.headI.length

/-- `cv2.resize(mask, (w, h), interpolation=cv2.INTER_NEAREST)`:
nearest-neighbour index scaling (line 66). -/
def resizeNearest (m : Mask) (h w : Nat) : Mask :=
  (List.range h).map fun i => (List.range w).map fun j =>
    ((m.getD (i * m.height / h) []).getD (j * m.width / w) false)

/-! ## `convert_coco_poly_to_mask` (lines 26-41) -/

/-- Torch dtypes that appear in the file. -/
inductive DType where
  | uint8
  | bool
deriving Repr, DecidableEq

/-- A 3-d tensor of masks together with its reported shape and dtype.
`torch.stack` of `n` masks of shape `(h, w)` has shape `(n, h, w)`;
`torch.zeros((0, h, w))` keeps `(0, h, w)`. -/
structure Tensor3 where
  dtype : DType
  shape : Nat × Nat × Nat
  data : List Mask
deriving Repr, DecidableEq

/-- Lines 26-41.  Each `polygons` element is rasterized on its own
(`frPyObjects` + `decode` + `.any(dim=2)`, lines 29-34, via
`decodeUnion`); the per-element masks are stacked (line 37, dtype
`bool` after `.any`), and an empty input yields
`torch.zeros((0, height, width), dtype=torch.uint8)` (line 39). -/
def convert_coco_poly_to_mask (rasterFn : RasterFn)
    (segmentations : List (List Poly)) (height width : Nat) : Tensor3 :=
  let masks := segmentations.map fun polygons =>
    decodeUnion rasterFn polygons height width
  if masks.isEmpty then
    { dtype := .uint8, shape := (0, height, width), data := [] }
  else
    { dtype := .bool,
      shape := (masks.length, masks.headI.height, masks.headI.width),
      data := masks }

/-! ## `convert_coco_poly_to_mask_` (lines 42-75) -/

/-- The result of `convert_coco_poly_to_mask_`: the Python function
returns a numpy array (line 70, single mask), a stacked torch tensor
(line 72), or a zero torch tensor (line 74); we record which. -/
inductive MasksOut where
  | numpySingle (m : Mask)
  | torchStack (ms : List Mask)
  | torchZeros (h w : Nat)
deriving Repr, DecidableEq

/-- The list of masks held by a `MasksOut`. -/
def MasksOut.data : MasksOut → List Mask
  | .numpySingle m => [m]
  | .torchStack ms => ms
  | .torchZeros _ _ => []

/-- The loop body of lines 45-68: starting from the accumulated
`masks_` (NOT reset between iterations, line 43 initializes it once),
each element extends `masks_` (lines 47-56), the whole accumulated list
is rasterized and unioned (lines 58-63), and resized if its shape is
not `(h, w)` (lines 64-66). -/
def convPolyLoop (rasterFn : RasterFn) (h w : Nat) :
    List Poly → List Mask → List SegElem → List Mask
  | _, masks, [] => masks
  | masks_, masks, s :: rest =>
    let masks_' := masks_ ++ s.polyList
    let mask := decodeUnion rasterFn masks_' h w
    let mask := if (mask.height, mask.width) ≠ (h, w) then
        resizeNearest mask h w else mask
    convPolyLoop rasterFn h w masks_' (masks ++ [mask]) rest

/-- Lines 42-75, with the packaging of lines 69-74: a single mask is
returned as `np.expand_dims(masks[0], axis=0)`, several are stacked,
none gives `torch.zeros((0, height, width), dtype=torch.uint8)`. -/
def convert_coco_poly_to_mask' (rasterFn : RasterFn)
    (segmentations : List SegElem) (height width : Nat) : MasksOut :=
  let masks := convPolyLoop rasterFn height width [] [] segmentations
  match masks with
  | [m] => .numpySingle m
  | [] => .torchZeros height width
  | ms => .torchStack ms

/-! ## `binary_masks_to_polygons` (lines 77-114) -/

/-- A contour as returned by `cv2.findContours` after `squeeze(1)`:
a list of integer points `(x, y)`. -/
abbrev Contour := List (Int × Int)

/-- Abstract contour extractor:
`cv2.findContours(mask, RETR_EXTERNAL, CHAIN_APPROX_SIMPLE)`. -/
abbrev ContourFn := Mask → List Contour

/-- `contour.flatten().tolist()` on an `(N, 2)` array: the interleaved
coordinate list (line 107, each entry cast to float). -/
def Contour.flatten : Contour → List Int
  | [] => []
  | (x, y) :: rest => x :: y :: Contour.flatten rest

/-- Lines 101-110: for each contour, skip it when it has fewer than 3
points (lines 104-105), flatten it (line 107), and keep the flat list
when its length is at least 6 (lines 109-110). -/
def contoursToPolygons (contours : List Contour) : List Poly :=
  contours.foldl (fun polygons contour =>
    if contour.length < 3 then polygons
    else
      let polygon := contour.flatten
      if polygon.length ≥ 6 then polygons ++ [polygon] else polygons) []

/-- Lines 77-114: one polygon list per input mask, produced by
extracting contours (line 99) and filtering/flattening them
(lines 101-112).  The dtype/layout coercions of lines 91-98 do not
change the mask's boolean content. -/
def binary_masks_to_polygons (contourFn : ContourFn) (masks : List Mask) :
    List (List Poly) :=
  masks.map fun mask_np => contoursToPolygons (contourFn mask_np)

/-! ## `build_transform_gen` (lines 116-144) -/

/-- The augmentation config slice read by `build_transform_gen`:
`cfg.INPUT.IMAGE_SIZE`, `cfg.INPUT.MIN_SCALE`, `cfg.INPUT.MAX_SCALE`,
`cfg.INPUT.RANDOM_FLIP`. -/
structure InputCfg where
  IMAGE_SIZE : Nat
  MIN_SCALE : Rat
  MAX_SCALE : Rat
  RANDOM_FLIP : String
deriving Repr, DecidableEq

/-- The detectron2 augmentation objects constructed at lines 130-143. -/
inductive Augmentation where
  | RandomFlip (horizontal vertical : Bool)
  | ResizeScale (min_scale max_scale : Rat) (target_height target_width : Nat)
  | FixedSizeCrop (crop_size : Nat × Nat)
deriving Repr, DecidableEq

/-- Lines 116-144.  `assert is_train` (line 123) is modelled as
`Except`: the non-training call raises.  Otherwise the list is built
exactly as in the code: optional `RandomFlip` (lines 130-136), then
`ResizeScale` and `FixedSizeCrop` appended together (lines 138-143). -/
def build_transform_gen (cfg : InputCfg) (is_train : Bool) :
    Except String (List Augmentation) :=
  if ¬ is_train then .error "Only support training augmentation" else
  let image_size := cfg.IMAGE_SIZE
  let min_scale := cfg.MIN_SCALE
  let max_scale := cfg.MAX_SCALE
  let augmentation : List Augmentation := []
  let augmentation := if cfg.RANDOM_FLIP ≠ "none" then
      augmentation ++ [.RandomFlip (cfg.RANDOM_FLIP = "horizontal")
                                   (cfg.RANDOM_FLIP = "vertical")]
    else augmentation
  let augmentation := augmentation ++
    [.ResizeScale min_scale max_scale image_size image_size,
     .FixedSizeCrop (image_size, image_size)]
  .ok augmentation

/-! ## Theorems: C5 -/

/-- C5: for every config with `is_train` true, `build_transform_gen`
returns the flip (present iff `RANDOM_FLIP ≠ "none"`, horizontal iff it
equals `"horizontal"`, vertical iff it equals `"vertical"`), then the
`ResizeScale` with the config's scales and target size, then the
`FixedSizeCrop` of `(image_size, image_size)` — in that order. -/
theorem build_transform_gen_spec (cfg : InputCfg) :
    build_transform_gen cfg true =
      .ok ((if cfg.RANDOM_FLIP ≠ "none" then
              [Augmentation.RandomFlip (cfg.RANDOM_FLIP = "horizontal")
                                       (cfg.RANDOM_FLIP = "vertical")]
            else []) ++
           [Augmentation.ResizeScale cfg.MIN_SCALE cfg.MAX_SCALE
              cfg.IMAGE_SIZE cfg.IMAGE_SIZE,
            Augmentation.FixedSizeCrop (cfg.IMAGE_SIZE, cfg.IMAGE_SIZE)]) := by
  by_cases h : cfg.RANDOM_FLIP = "none" <;>
    simp [build_transform_gen, h]

/-! ## Shape lemmas for `decodeUnion` -/

/-- A decoded mask has `h` rows. -/
theorem decodeUnion_height (rasterFn : RasterFn) (ps : List Poly) (h w : Nat) :
    (decodeUnion rasterFn ps h w).height = h := by
  simp [decodeUnion, Mask.height]

/-- For a non-degenerate canvas, a decoded mask has `w` columns. -/
theorem decodeUnion_width (rasterFn : RasterFn) (ps : List Poly) (h w : Nat)
    (hh : 0 < h) : (decodeUnion rasterFn ps h w).width = w := by
  cases h with
  | zero => exact absurd hh (by simp)
  | succ n => simp [decodeUnion, Mask.width, List.range_succ_eq_map]

/-! ## Theorems: C6 -/

/-- C6: `convert_coco_poly_to_mask` returns a tensor of shape
`(len(segmentations), height, width)` with one mask per element; the
empty input yields the zero tensor of shape `(0, height, width)` with
dtype `uint8`. -/
theorem convert_coco_poly_to_mask_spec (rasterFn : RasterFn)
    (segs : List (List Poly)) (h w : Nat) (hh : 0 < h) :
    (convert_coco_poly_to_mask rasterFn segs h w).shape = (segs.length, h, w) ∧
    (convert_coco_poly_to_mask rasterFn segs h w).data.length = segs.length ∧
    (segs = [] →
      convert_coco_poly_to_mask rasterFn segs h w =
        { dtype := .uint8, shape := (0, h, w), data := [] }) := by
  cases segs with
  | nil => simp [convert_coco_poly_to_mask]
  | cons s rest =>
    refine ⟨?_, by simp [convert_coco_poly_to_mask], by simp⟩
    simp [convert_coco_poly_to_mask, decodeUnion_height,
      decodeUnion_width rasterFn s h w hh]

/-- Witness for C6 at a concrete input. -/
theorem convert_coco_poly_to_mask_spec_witness :
    (convert_coco_poly_to_mask (fun _ _ _ _ _ => false)
      [[[0, 0, 1, 0, 1, 1]]] 2 3).shape = (1, 2, 3) :=
  (convert_coco_poly_to_mask_spec (fun _ _ _ _ _ => false)
    [[[0, 0, 1, 0, 1, 1]]] 2 3 (by decide)).1

/-! ## Theorems: C2 -/

/-- The loop of `convert_coco_poly_to_mask_` produces, at index `i`,
the union rasterization of the polygons accumulated from the elements
`0 .. i` (the accumulator `masks_` is never reset, line 43). -/
theorem convPolyLoop_eq (rasterFn : RasterFn) (h w : Nat) (hh : 0 < h) :
    ∀ (segs : List SegElem) (masks_ : List Poly) (masks : List Mask),
      convPolyLoop rasterFn h w masks_ masks segs =
        masks ++ (List.range segs.length).map (fun i =>
          decodeUnion rasterFn
            (masks_ ++ ((segs.take (i + 1)).map SegElem.polyList).flatten) h w)
  | [], masks_, masks => by simp [convPolyLoop]
  | s :: rest, masks_, masks => by
    rw [convPolyLoop]
    have hdead :
        ((decodeUnion rasterFn (masks_ ++ s.polyList) h w).height,
         (decodeUnion rasterFn (masks_ ++ s.polyList) h w).width) = (h, w) := by
      simp [decodeUnion_height, decodeUnion_width _ _ h w hh]
    rw [if_neg (by simp [hdead])]
    rw [convPolyLoop_eq rasterFn h w hh rest (masks_ ++ s.polyList)
      (masks ++ [decodeUnion rasterFn (masks_ ++ s.polyList) h w])]
    simp only [List.length_cons, List.range_succ_eq_map, List.map_cons,
      List.map_map, List.append_assoc, List.cons_append, List.nil_append,
      List.take_cons, List.take_succ_cons, List.flatten, List.singleton_append]
    simp [Function.comp, Nat.succ_eq_add_one, List.append_nil]

/-- The list of masks returned by `convert_coco_poly_to_mask_` is
exactly what the loop accumulated, whichever packaging branch of
lines 69-74 is taken. -/
theorem conv_poly_data (rasterFn : RasterFn) (segs : List SegElem)
    (h w : Nat) :
    (convert_coco_poly_to_mask' rasterFn segs h w).data =
      convPolyLoop rasterFn h w [] [] segs := by
  unfold convert_coco_poly_to_mask'
  cases hms : convPolyLoop rasterFn h w [] [] segs with
  | nil => simp [MasksOut.data]
  | cons m rest => cases rest <;> simp [MasksOut.data]

/-- A concrete pointwise rasterizer used for counterexamples and
witnesses: pixel `(i, j)` is set iff the integer `j` occurs in the
polygon's coordinate list. -/
def idxRaster : RasterFn := fun p _ _ _ j => p.contains (Int.ofNat j)

/-- C2 counterexample: with two single-polygon segmentation elements,
the second returned mask is NOT the rasterization of the second element
alone — the accumulator `masks_` (line 43) still holds the first
element's polygon, so the second mask is the union of both. -/
theorem conv_poly_underscore_counterexample :
    (convert_coco_poly_to_mask' idxRaster
        [SegElem.flat [0], SegElem.flat [1]] 1 2).data.getD 1 [] ≠
      decodeUnion idxRaster (SegElem.flat [1]).polyList 1 2 := by
  decide

/-- C2 amended: `convert_coco_poly_to_mask_` returns one mask per
element of `segmentations`, each of shape `(height, width)`, but the
`i`-th mask is the union rasterization of all polygons of elements
`0 .. i` (the accumulated prefix), not of element `i` alone. -/
theorem conv_poly_underscore_amended (rasterFn : RasterFn)
    (segs : List SegElem) (h w : Nat) (hh : 0 < h) :
    (convert_coco_poly_to_mask' rasterFn segs h w).data.length = segs.length ∧
    (∀ i, i < segs.length →
      (convert_coco_poly_to_mask' rasterFn segs h w).data.getD i [] =
        decodeUnion rasterFn
          (((segs.take (i + 1)).map SegElem.polyList).flatten) h w) ∧
    (∀ m ∈ (convert_coco_poly_to_mask' rasterFn segs h w).data,
      m.height = h ∧ m.width = w) := by
  rw [conv_poly_data, convPolyLoop_eq rasterFn h w hh segs [] []]
  refine ⟨by simp, ?_, ?_⟩
  · intro i hi
    rw [List.nil_append, List.getD_eq_getElem?_getD]
    simp [List.getElem?_map, List.getElem?_range, hi]
  · intro m hm
    simp only [List.nil_append, List.mem_map] at hm
    obtain ⟨i, _, rfl⟩ := hm
    exact ⟨decodeUnion_height _ _ _ _, decodeUnion_width _ _ _ _ hh⟩

/-- Witness for the amended C2 at a concrete input. -/
theorem conv_poly_underscore_amended_witness :
    (convert_coco_poly_to_mask' idxRaster
        [SegElem.flat [0], SegElem.flat [1]] 1 2).data.getD 1 [] =
      decodeUnion idxRaster
        ((([SegElem.flat [0], SegElem.flat [1]].take 2).map
          SegElem.polyList).flatten) 1 2 :=
  (conv_poly_underscore_amended idxRaster
    [SegElem.flat [0], SegElem.flat [1]] 1 2 (by decide)).2.1 1 (by decide)

/-! ## Theorems: C4 -/

/-- Flattening an `(N, 2)` contour yields `2 * N` coordinates. -/
theorem flatten_length (c : Contour) : c.flatten.length = 2 * c.length := by
  induction c with
  | nil => rfl
  | cons p rest ih =>
    obtain ⟨x, y⟩ := p
    simp [Contour.flatten, ih]
    omega

/-- Every polygon kept by the contour filter of lines 101-110 has even
length at least 6. -/
theorem contoursToPolygons_even_ge (cs : List Contour) :
    ∀ p ∈ contoursToPolygons cs, p.length % 2 = 0 ∧ 6 ≤ p.length := by
  have main : ∀ (cs : List Contour) (acc : List Poly),
      (∀ p ∈ acc, p.length % 2 = 0 ∧ 6 ≤ p.length) →
      ∀ p ∈ cs.foldl (fun polygons contour =>
          if contour.length < 3 then polygons
          else
            let polygon := contour.flatten
            if polygon.length ≥ 6 then polygons ++ [polygon] else polygons)
        acc, p.length % 2 = 0 ∧ 6 ≤ p.length := by
    intro cs
    induction cs with
    | nil => intro acc hacc p hp; exact hacc p hp
    | cons c rest ih =>
      intro acc hacc p hp
      rw [List.foldl_cons] at hp
      refine ih _ ?_ p hp
      intro q hq
      by_cases h3 : c.length < 3
      · rw [if_pos h3] at hq; exact hacc q hq
      · rw [if_neg h3] at hq
        by_cases h6 : c.flatten.length ≥ 6
        · simp only [ge_iff_le, if_pos h6, List.mem_append,
            List.mem_singleton] at hq
          rcases hq with hq | rfl
          · exact hacc q hq
          · exact ⟨by rw [flatten_length]; omega, h6⟩
        · simp only [ge_iff_le, if_neg h6] at hq; exact hacc q hq
  exact main cs [] (by simp)

/-- C4: `binary_masks_to_polygons` returns one polygon list per input
mask, and every emitted polygon is a flat coordinate list of even
length at least 6 (at least 3 points). -/
theorem binary_masks_to_polygons_spec (contourFn : ContourFn)
    (masks : List Mask) :
    (binary_masks_to_polygons contourFn masks).length = masks.length ∧
    ∀ ps ∈ binary_masks_to_polygons contourFn masks, ∀ p ∈ ps,
      p.length % 2 = 0 ∧ 6 ≤ p.length := by
  refine ⟨by simp [binary_masks_to_polygons], ?_⟩
  intro ps hps p hp
  simp only [binary_masks_to_polygons, List.mem_map] at hps
  obtain ⟨m, _, rfl⟩ := hps
  exact contoursToPolygons_even_ge (contourFn m) p hp

/-! ## AnnoDicts and the regeneration loop of `__call__` (lines 270-283) -/

/-- Python runtime errors that the modelled code can raise. -/
inductive PyErr where
  | keyError
  | indexError
  | unboundLocal
  | sizeMismatch
  | attributeError
  | valueError
deriving Repr, DecidableEq

/-- A box `(x1, y1, x2, y2)` as unpacked at line 273; float coordinates
are modelled as rationals. -/
abbrev BBoxR := Rat × Rat × Rat × Rat

/-- The detectron2 `BoxMode` values used in the file. -/
inductive BoxMode where
  | XYWH_ABS
  | XYXY_ABS
deriving Repr, DecidableEq

/-- An annotation dict, with the keys the file reads or writes.
`keypoints` records whether the optional `"keypoints"` entry is present
(it is popped at line 322). -/
structure AnnoDict where
  iscrowd : Nat
  bbox : List Rat
  category_id : Int
  segmentation : List SegElem
  bbox_mode : BoxMode
  keypoints : Bool
deriving Repr, DecidableEq

/-- The loop of lines 272-283 at loop counter `i`: unpack `boxes[i]`
(line 273, `IndexError` when out of range), read `label_dict["labels"][i]`
(line 280), and build the new annotation dict of lines 277-283. -/
def regenGo (boxes : List BBoxR) (labels : List Int) :
    Nat → List (List Poly) → Except PyErr (List AnnoDict)
  | _, [] => .ok []
  | i, m :: rest =>
    match boxes.get? i, labels.get? i with
    | some (x1, y1, x2, y2), some lab =>
      match regenGo boxes labels (i + 1) rest with
      | .ok anns => .ok ({ iscrowd := 0,
                           bbox := [x1, y1, x2 - x1, y2 - y1],
                           category_id := lab,
                           segmentation := m.map SegElem.flat,
                           bbox_mode := .XYWH_ABS,
                           keypoints := false } :: anns)
      | .error e => .error e
    | _, _ => .error .indexError

/-- Lines 270-283: `new_annotations` built from the polygon lists of the
augmented masks (already passed through `binary_masks_to_polygons`,
line 271) and the augmented boxes and labels. -/
def regenAnnoDicts (masksPolys : List (List Poly)) (boxes : List BBoxR)
    (labels : List Int) : Except PyErr (List AnnoDict) :=
  regenGo boxes labels 0 masksPolys

/-- Characterization of `regenGo`: with enough boxes and labels it
succeeds and produces, per index, the annotation of lines 277-283. -/
theorem regenGo_spec (boxes : List BBoxR) (labels : List Int) :
    ∀ (ms : List (List Poly)) (i : Nat),
      i + ms.length ≤ boxes.length → i + ms.length ≤ labels.length →
      ∃ anns, regenGo boxes labels i ms = .ok anns ∧
        anns.length = ms.length ∧
        ∀ j x1 y1 x2 y2 lab m, j < ms.length →
          ms.get? j = some m →
          boxes.get? (i + j) = some (x1, y1, x2, y2) →
          labels.get? (i + j) = some lab →
          anns.get? j = some { iscrowd := 0,
                               bbox := [x1, y1, x2 - x1, y2 - y1],
                               category_id := lab,
                               segmentation := m.map SegElem.flat,
                               bbox_mode := .XYWH_ABS,
                               keypoints := false }
  | [], i => by
    intro _ _
    exact ⟨[], rfl, rfl, by intro j _ _ _ _ _ _ hj _ _ _; simp at hj⟩
  | m :: rest, i => by
    intro hb hl
    simp only [List.length_cons] at hb hl
    have hbi : i < boxes.length := by omega
    have hli : i < labels.length := by omega
    obtain ⟨⟨x1, y1, x2, y2⟩, hbeq⟩ : ∃ b, boxes.get? i = some b :=
      ⟨boxes.get ⟨i, hbi⟩, List.get?_eq_get hbi⟩
    obtain ⟨lab, hleq⟩ : ∃ l, labels.get? i = some l :=
      ⟨labels.get ⟨i, hli⟩, List.get?_eq_get hli⟩
    obtain ⟨anns, heq, hlen, hidx⟩ :=
      regenGo_spec boxes labels rest (i + 1) (by omega) (by omega)
    refine ⟨_, by rw [regenGo, hbeq, hleq, heq], by simp [hlen], ?_⟩
    intro j x1' y1' x2' y2' lab' m' hj hm hbj hlj
    cases j with
    | zero =>
      simp only [Nat.add_zero] at hbj hlj
      rw [hbeq] at hbj
      rw [hleq] at hlj
      simp only [List.get?_cons_zero, Option.some.injEq] at hm ⊢
      cases hbj
      cases hlj
      simp [← hm]
    | succ k =>
      simp only [List.get?_cons_succ] at hm ⊢
      have : i + (k + 1) = i + 1 + k := by omega
      exact hidx k x1' y1' x2' y2' lab' m' (by simp at hj; omega) hm
        (by rw [← this]; exact hbj) (by rw [← this]; exact hlj)

/-- C3: after the copy-paste augmentation, the regenerated annotations
are consistent with the augmented masks, boxes and labels: one new
annotation per augmented mask, the `i`-th having bbox
`[x1, y1, x2-x1, y2-y1]` in `XYWH_ABS` mode from the `i`-th box,
`category_id` the `i`-th label, segmentation the polygons extracted
from the `i`-th mask, and `iscrowd` 0. -/
theorem regen_after_copy_paste_spec (contourFn : ContourFn)
    (masks : List Mask) (boxes : List BBoxR) (labels : List Int)
    (hb : masks.length ≤ boxes.length) (hl : masks.length ≤ labels.length) :
    ∃ anns,
      regenAnnoDicts (binary_masks_to_polygons contourFn masks)
          boxes labels = .ok anns ∧
      anns.length = masks.length ∧
      ∀ j x1 y1 x2 y2 lab, j < masks.length →
        boxes.get? j = some (x1, y1, x2, y2) →
        labels.get? j = some lab →
        anns.get? j = some { iscrowd := 0,
                             bbox := [x1, y1, x2 - x1, y2 - y1],
                             category_id := lab,
                             segmentation :=
                               ((binary_masks_to_polygons contourFn
                                   masks).getD j []).map SegElem.flat,
                             bbox_mode := .XYWH_ABS,
                             keypoints := false } := by
  have hlen : (binary_masks_to_polygons contourFn masks).length =
      masks.length := (binary_masks_to_polygons_spec contourFn masks).1
  obtain ⟨anns, heq, halen, hidx⟩ :=
    regenGo_spec boxes labels (binary_masks_to_polygons contourFn masks) 0
      (by omega) (by omega)
  refine ⟨anns, heq, by omega, ?_⟩
  intro j x1 y1 x2 y2 lab hj hbj hlj
  have hj' : j < (binary_masks_to_polygons contourFn masks).length := by omega
  have hm : (binary_masks_to_polygons contourFn masks).get? j =
      some ((binary_masks_to_polygons contourFn masks).getD j []) := by
    rw [List.getD_eq_getElem?_getD, List.get?_eq_getElem?,
      List.getElem?_eq_getElem hj']
    rfl
  exact hidx j x1 y1 x2 y2 lab _ hj' hm (by simpa using hbj)
    (by simpa using hlj)

/-- Witness for C3 at a concrete input. -/
theorem regen_after_copy_paste_spec_witness :
    ∃ anns,
      regenAnnoDicts (binary_masks_to_polygons (fun _ => [])
          [[[true]]]) [((0 : Rat), (0 : Rat), (2 : Rat), (3 : Rat))]
          [(5 : Int)] = .ok anns ∧
      anns.length = 1 := by
  obtain ⟨anns, h1, h2, _⟩ :=
    regen_after_copy_paste_spec (fun _ => []) [[[true]]]
      [((0 : Rat), (0 : Rat), (2 : Rat), (3 : Rat))] [(5 : Int)]
      (by decide) (by decide)
  exact ⟨anns, h1, by simpa using h2⟩

/-! ## `_get_texts` (lines 226-244) -/

/-- Python dict read `d[key]` on a string-keyed counter dict. -/
def dlookup : List (String × Nat) → String → Option Nat
  | [], _ => none
  | (k, v) :: rest, key => if k = key then some v else dlookup rest key

/-- Python `d[key] += 1` (line 233): `none` models the `KeyError` when
the key is absent. -/
def bump : List (String × Nat) → String → Option (List (String × Nat))
  | [], _ => none
  | (k, v) :: rest, key =>
    if k = key then some ((k, v + 1) :: rest)
    else (bump rest key).map ((k, v) :: ·)

/-- The counting loop of lines 231-233: for each instance class id,
look up its class name (`IndexError` when out of range) and increment
its counter (`KeyError` when the name is not a key). -/
def countClasses (class_names : List String) :
    List Nat → List (String × Nat) → Except PyErr (List (String × Nat))
  | [], d => .ok d
  | c :: cs, d =>
    match class_names.get? c with
    | none => .error .indexError
    | some name =>
      match bump d name with
      | none => .error .keyError
      | some d' => countClasses class_names cs d'

/-- The inner loop of lines 238-242: write `msg` into `texts[num]`,
`cnt` times, stopping (the `break` of line 240) as soon as
`num >= len(texts)`; the bound is checked before each write. -/
def fillN (msg : String) : Nat → List String → Nat → List String × Nat
  | 0, texts, num => (texts, num)
  | c + 1, texts, num =>
    if texts.length ≤ num then (texts, num)
    else fillN msg c (texts.set num msg) (num + 1)

/-- The outer loop of lines 236-242: iterate the class names in order;
for each with a positive count, fill that many `"a photo with a ..."`
entries.  The dict read of line 237 can raise `KeyError`. -/
def fillClasses (counts : List (String × Nat)) :
    List String → List String → Nat → Except PyErr (List String × Nat)
  | [], texts, num => .ok (texts, num)
  | name :: rest, texts, num =>
    match dlookup counts name with
    | none => .error .keyError
    | some cnt =>
      if cnt > 0 then
        let p := fillN ("a photo with a " ++ name) cnt texts num
        fillClasses counts rest p.1 p.2
      else fillClasses counts rest texts num

/-- `_get_texts` (lines 226-244): `texts` starts as `num_queries`
copies of `"an instance photo"` (line 229), instance classes are
counted per class name (lines 231-233), and the counted names fill the
prefix in class-name order (lines 235-242). -/
def get_texts (class_names : List String) (num_queries : Nat)
    (classes : List Nat) (num_class_obj : List (String × Nat)) :
    Except PyErr (List String) :=
  let texts := List.replicate num_queries "an instance photo"
  match countClasses class_names classes num_class_obj with
  | .error e => .error e
  | .ok counts =>
    match fillClasses counts class_names texts 0 with
    | .error e => .error e
    | .ok p => .ok p.1

/-- The grouped prompt list: for each class index `k` in class-name
order, one `"a photo with a ..."` entry per instance of class `k`. -/
def groupedTexts (class_names : List String) (classes : List Nat) :
    List String :=
  ((List.range class_names.length).map fun k =>
    List.replicate (classes.count k)
      ("a photo with a " ++ class_names.getD k "")).flatten

/-- Looking up any present name in the zero-initialized counter dict of
lines 345-347 yields 0. -/
theorem dlookup_map_zero (cn : List String) (name : String) :
    dlookup (cn.map fun n => (n, 0)) name =
      if name ∈ cn then some 0 else none := by
  induction cn with
  | nil => simp [dlookup]
  | cons k rest ih =>
    by_cases hk : k = name
    · subst hk; simp [dlookup]
    · simp [dlookup, hk, ih, Ne.symm hk]

/-- Incrementing a present key bumps its (first) binding and leaves
every other key's lookup unchanged. -/
theorem bump_dlookup (key : String) :
    ∀ (d : List (String × Nat)) (v : Nat), dlookup d key = some v →
      ∃ d', bump d key = some d' ∧ dlookup d' key = some (v + 1) ∧
        ∀ k', k' ≠ key → dlookup d' k' = dlookup d k'
  | [], v => by simp [dlookup]
  | (k, v0) :: rest, v => by
    intro hv
    by_cases hk : k = key
    · subst hk
      have hv' : v0 = v := by simpa [dlookup] using hv
      subst hv'
      refine ⟨(k, v0 + 1) :: rest, by simp [bump], by simp [dlookup], ?_⟩
      intro k' hk'
      simp [dlookup, Ne.symm hk']
    · simp only [dlookup, if_neg hk] at hv
      obtain ⟨d'', hb, hl, ho⟩ := bump_dlookup key rest v hv
      refine ⟨(k, v0) :: d'', by simp [bump, hk, hb], ?_, ?_⟩
      · simp [dlookup, hk, hl]
      · intro k' hk'
        by_cases hkk : k = k' <;> simp [dlookup, hkk, ho k' hk']

/-- The counting loop of lines 231-233 adds, to each class's counter,
the number of instances of that class. -/
theorem countClasses_spec (cn : List String) (hnodup : cn.Nodup) :
    ∀ (cs : List Nat) (d : List (String × Nat)) (g : Nat → Nat),
      (∀ c ∈ cs, c < cn.length) →
      (∀ k, (hk : k < cn.length) → dlookup d (cn.get ⟨k, hk⟩) = some (g k)) →
      ∃ d', countClasses cn cs d = .ok d' ∧
        ∀ k, (hk : k < cn.length) →
          dlookup d' (cn.get ⟨k, hk⟩) = some (g k + cs.count k)
  | [], d, g => by
    intro _ hd
    exact ⟨d, rfl, by simpa using hd⟩
  | c :: cs, d, g => by
    intro hcs hd
    have hc : c < cn.length := hcs c (by simp)
    obtain ⟨d'', hb, hl, ho⟩ :=
      bump_dlookup (cn.get ⟨c, hc⟩) d (g c) (hd c hc)
    have hstep : ∀ k, (hk : k < cn.length) →
        dlookup d'' (cn.get ⟨k, hk⟩) =
          some (if k = c then g k + 1 else g k) := by
      intro k hk
      by_cases hkc : k = c
      · subst hkc; simpa using hl
      · rw [if_neg hkc, ho _ ?_, hd k hk]
        intro hcontra
        have h2 : (⟨k, hk⟩ : Fin cn.length) = ⟨c, hc⟩ :=
          (hnodup.get_inj_iff).1 hcontra
        exact hkc (by simpa using h2)
    obtain ⟨d', hrec, hfin⟩ := countClasses_spec cn hnodup cs d''
      (fun k => if k = c then g k + 1 else g k)
      (fun x hx => hcs x (by simp [hx])) hstep
    refine ⟨d', ?_, ?_⟩
    · simp only [countClasses, List.get?_eq_get hc, hb, hrec]
    · intro k hk
      rw [hfin k hk]
      have hcount : (c :: cs).count k = cs.count k + if k = c then 1 else 0 := by
        by_cases hkc : k = c
        · subst hkc; simp [List.count_cons]
        · simp [List.count_cons, hkc, Ne.symm hkc]
      rw [hcount]
      by_cases hkc : k = c
      · simp only [if_pos hkc, Option.some.injEq]; omega
      · simp only [if_neg hkc, Option.some.injEq]; omega

/-- The inner fill loop writes `min cnt (len - num)` consecutive
entries starting at `num` and advances `num` by that amount. -/
theorem fillN_spec (msg : String) :
    ∀ (c : Nat) (texts : List String) (num : Nat), num ≤ texts.length →
      fillN msg c texts num =
        (texts.take num ++
           List.replicate (min c (texts.length - num)) msg ++
           texts.drop (num + min c (texts.length - num)),
         num + min c (texts.length - num))
  | 0, texts, num => by
    intro _
    simp [fillN, List.take_append_drop]
  | c + 1, texts, num => by
    intro hnum
    rw [fillN]
    by_cases hfull : texts.length ≤ num
    · rw [if_pos hfull]
      have h0 : texts.length - num = 0 := by omega
      simp [h0, List.take_of_length_le hfull, List.drop_of_length_le hfull]
    · rw [if_neg hfull]
      have hlt : num < texts.length := by omega
      rw [fillN_spec msg c (texts.set num msg) (num + 1)
        (by rw [List.length_set]; omega)]
      rw [List.set_eq_take_cons_drop msg hlt]
      have hltake : (texts.take num).length = num := by
        rw [List.length_take]; omega
      have hk : min c ((texts.take num ++ msg :: texts.drop (num + 1)).length
          - (num + 1)) = min c (texts.length - (num + 1)) := by
        simp only [List.length_append, hltake, List.length_cons,
          List.length_drop]
        omega
      rw [hk]
      set k := min c (texts.length - (num + 1)) with hkdef
      have htake : (texts.take num ++ msg :: texts.drop (num + 1)).take
          (num + 1) = texts.take num ++ [msg] := by
        conv_lhs => rw [show num + 1 = (texts.take num).length + 1 by omega]
        rw [List.take_append]
        simp
      have hdrop : (texts.take num ++ msg :: texts.drop (num + 1)).drop
          (num + 1 + k) = texts.drop (num + 1 + k) := by
        conv_lhs => rw [show num + 1 + k = (texts.take num).length + (1 + k) by
          omega]
        rw [List.drop_append]
        cases k with
        | zero => simp
        | succ k' =>
          show List.drop (1 + (k' + 1)) _ = _
          rw [show 1 + (k' + 1) = k' + 1 + 1 by omega]
          simp only [List.drop_succ_cons]
          rw [List.drop_drop]
      rw [htake, hdrop]
      have hmin : min (c + 1) (texts.length - num) = k + 1 := by
        rw [hkdef]; omega
      rw [hmin]
      simp only [Prod.mk.injEq]
      refine ⟨?_, by omega⟩
      rw [show num + (k + 1) = num + 1 + k by omega]
      simp [List.replicate_succ, List.append_assoc]

/-- One step of the outer fill loop, phrased on the invariant shape of
`texts` and `num`: filling `cnt` copies of `msg` extends the grouped
prefix `G` by `replicate cnt msg`. -/
theorem fillStep (msg dflt : String) (Q cnt : Nat) (G : List String) :
    fillN msg cnt (G.take Q ++ List.replicate (Q - G.length) dflt)
        (min G.length Q) =
      ((G ++ List.replicate cnt msg).take Q ++
         List.replicate (Q - (G.length + cnt)) dflt,
       min (G.length + cnt) Q) := by
  set texts := G.take Q ++ List.replicate (Q - G.length) dflt with htexts
  have hlen : texts.length = Q := by
    simp only [htexts, List.length_append, List.length_take,
      List.length_replicate]
    omega
  have hnum : min G.length Q ≤ texts.length := by omega
  rw [fillN_spec msg cnt texts (min G.length Q) hnum, hlen]
  by_cases hg : Q ≤ G.length
  · have hmin : min G.length Q = Q := by omega
    have hk : min cnt (Q - Q) = 0 := by simp
    rw [hmin, hk]
    have h1 : Q - G.length = 0 := by omega
    have h2 : Q - (G.length + cnt) = 0 := by omega
    have h3 : (G ++ List.replicate cnt msg).take Q = G.take Q := by
      rw [List.take_append_of_le_length hg]
    simp only [h2, h3, Nat.add_zero, List.replicate_zero, List.append_nil,
      List.nil_append, Prod.mk.injEq]
    refine ⟨?_, by omega⟩
    rw [List.take_append_drop, htexts, h1]
    simp
  · have hglt : G.length < Q := by omega
    have hmin : min G.length Q = G.length := by omega
    have hGfull : G.take Q = G := List.take_of_length_le (by omega)
    rw [hmin]
    set k := min cnt (Q - G.length) with hkdef
    have htake : texts.take G.length = G := by
      rw [htexts, hGfull, List.take_append_of_le_length (le_refl _),
        List.take_length]
    have hdrop : texts.drop (G.length + k) =
        List.replicate (Q - G.length - k) dflt := by
      rw [htexts, hGfull, List.drop_append, List.drop_replicate]
    rw [htake, hdrop]
    by_cases hcnt : cnt ≤ Q - G.length
    · have hkc : k = cnt := by omega
      have hfit : (G ++ List.replicate cnt msg).take Q =
          G ++ List.replicate cnt msg := by
        apply List.take_of_length_le
        simp only [List.length_append, List.length_replicate]
        omega
      rw [hkc, hfit]
      simp only [Prod.mk.injEq]
      refine ⟨?_, by omega⟩
      rw [show Q - G.length - cnt = Q - (G.length + cnt) by omega]
    · have hkc : k = Q - G.length := by omega
      have hover : (G ++ List.replicate cnt msg).take Q =
          G ++ List.replicate (Q - G.length) msg := by
        conv_lhs => rw [show Q = G.length + (Q - G.length) by omega]
        rw [List.take_append, List.take_replicate]
        congr 2
        omega
      rw [hkc, hover]
      have h2 : Q - (G.length + cnt) = 0 := by omega
      have h3 : Q - G.length - (Q - G.length) = 0 := by omega
      simp only [h2, h3, List.replicate_zero, List.append_nil,
        Prod.mk.injEq]
      exact ⟨by simp, by omega⟩

/-- The outer fill loop of lines 236-242, run over any list of names
whose counts are `cfun`, appends each name's group to the prefix. -/
theorem fillClasses_spec (counts : List (String × Nat))
    (cfun : String → Nat) (Q : Nat) :
    ∀ (names : List String) (G : List String),
      (∀ nm ∈ names, dlookup counts nm = some (cfun nm)) →
      fillClasses counts names
          (G.take Q ++ List.replicate (Q - G.length) "an instance photo")
          (min G.length Q) =
        .ok (((G ++ (names.map fun nm =>
                List.replicate (cfun nm) ("a photo with a " ++ nm)).flatten
              ).take Q ++
              List.replicate
                (Q - (G ++ (names.map fun nm =>
                  List.replicate (cfun nm) ("a photo with a " ++ nm)).flatten
                ).length) "an instance photo",
              min (G ++ (names.map fun nm =>
                List.replicate (cfun nm) ("a photo with a " ++ nm)).flatten
              ).length Q))
  | [], G => by
    intro _
    simp [fillClasses]
  | name :: rest, G => by
    intro hin
    have hname : dlookup counts name = some (cfun name) :=
      hin name (by simp)
    simp only [fillClasses, hname]
    have hrec := fillClasses_spec counts cfun Q rest
      (G ++ List.replicate (cfun name) ("a photo with a " ++ name))
      (fun nm hnm => hin nm (by simp [hnm]))
    rw [List.length_append, List.length_replicate] at hrec
    have hflat : ((name :: rest).map fun nm =>
        List.replicate (cfun nm) ("a photo with a " ++ nm)).flatten =
        List.replicate (cfun name) ("a photo with a " ++ name) ++
          (rest.map fun nm =>
            List.replicate (cfun nm) ("a photo with a " ++ nm)).flatten := by
      simp
    by_cases hpos : cfun name > 0
    · rw [if_pos hpos]
      rw [fillStep ("a photo with a " ++ name) "an instance photo" Q
        (cfun name) G]
      rw [hrec, hflat]
      simp [List.append_assoc]
    · rw [if_neg hpos]
      have hzero : cfun name = 0 := by omega
      rw [hzero] at hrec
      simp only [List.replicate_zero, List.append_nil, Nat.add_zero] at hrec
      rw [hrec, hflat, hzero]
      simp [List.append_assoc]

/-- Summing the indicator of a fixed `c < n` over `range n` gives 1. -/
theorem sum_indicator (c : Nat) :
    ∀ (n : Nat), c < n →
      ((List.range n).map fun k => if c = k then (1 : Nat) else 0).sum = 1 := by
  intro n
  induction n with
  | zero => omega
  | succ m ih =>
    intro hc
    rw [List.range_succ, List.map_append, List.sum_append]
    by_cases hcm : c = m
    · subst hcm
      have hzero : ((List.range c).map fun k =>
          if c = k then (1 : Nat) else 0).sum = 0 := by
        apply List.sum_eq_zero
        intro x hx
        simp only [List.mem_map, List.mem_range] at hx
        obtain ⟨k, hk, rfl⟩ := hx
        rw [if_neg (by omega)]
      simp [hzero]
    · have h1 := ih (by omega)
      simp [h1, hcm]

/-- The per-class counts over `range n` sum to the number of instances
when every instance's class is below `n`. -/
theorem sum_counts (n : Nat) :
    ∀ (classes : List Nat), (∀ c ∈ classes, c < n) →
      ((List.range n).map fun k => classes.count k).sum = classes.length := by
  intro classes
  induction classes with
  | nil => intro _; simp
  | cons c cs ih =>
    intro h
    have hc : c < n := h c (by simp)
    have hcs := ih (fun x hx => h x (by simp [hx]))
    have hmap : ((List.range n).map fun k => (c :: cs).count k) =
        (List.range n).map fun k =>
          cs.count k + if c = k then 1 else 0 := by
      apply List.map_congr_left
      intro k _
      by_cases hck : c = k
      · subst hck; simp [List.count_cons]
      · simp [List.count_cons, hck, Ne.symm hck]
    rw [hmap, List.sum_map_add, hcs, sum_indicator c n hc]
    simp

/-- A map over a list is the map over its index range. -/
theorem map_eq_range_map {α β : Type} (l : List α) (f : α → β) (d : α) :
    l.map f = (List.range l.length).map fun k => f (l.getD k d) := by
  apply List.ext_getElem (by simp)
  intro i h1 h2
  have hi : i < l.length := by simpa using h1
  simp [List.getD_eq_getElem?_getD, List.getElem?_eq_getElem hi]

/-- The grouped prompt list has one entry per instance. -/
theorem groupedTexts_length (cn : List String) (classes : List Nat)
    (hrange : ∀ c ∈ classes, c < cn.length) :
    (groupedTexts cn classes).length = classes.length := by
  rw [groupedTexts, List.length_flatten, List.map_map]
  have : ((List.range cn.length).map fun k =>
      (List.replicate (classes.count k)
        ("a photo with a " ++ cn.getD k "")).length) =
      (List.range cn.length).map fun k => classes.count k := by
    apply List.map_congr_left
    intro k _
    simp
  calc ((List.range cn.length).map (List.length ∘ fun k =>
          List.replicate (classes.count k)
            ("a photo with a " ++ cn.getD k ""))).sum
      = ((List.range cn.length).map fun k => classes.count k).sum := by
        rw [← this]; rfl
    _ = classes.length := sum_counts cn.length classes hrange

/-- Full characterization of `_get_texts` with the zero-initialized
counter dict of lines 345-347. -/
theorem get_texts_full (cn : List String) (Q : Nat) (classes : List Nat)
    (hnodup : cn.Nodup) (hrange : ∀ c ∈ classes, c < cn.length) :
    get_texts cn Q classes (cn.map fun n => (n, 0)) =
      .ok ((groupedTexts cn classes).take Q ++
        List.replicate (Q - classes.length) "an instance photo") ∧
    (groupedTexts cn classes).length = classes.length ∧
    ((groupedTexts cn classes).take Q ++
      List.replicate (Q - classes.length) "an instance photo").length = Q := by
  have hsum := groupedTexts_length cn classes hrange
  have hd0 : ∀ k, (hk : k < cn.length) →
      dlookup (cn.map fun n => (n, 0)) (cn.get ⟨k, hk⟩) = some 0 := by
    intro k hk
    rw [dlookup_map_zero]
    simp [List.get_mem]
  obtain ⟨d', hcount, hlook⟩ := countClasses_spec cn hnodup classes
    (cn.map fun n => (n, 0)) (fun _ => 0) hrange hd0
  have hin : ∀ nm ∈ cn, dlookup d' nm =
      some ((dlookup d' nm).getD 0) := by
    intro nm hnm
    obtain ⟨⟨k, hk⟩, hget⟩ := List.mem_iff_get.1 hnm
    rw [← hget, hlook k hk]
    rfl
  have hfill := fillClasses_spec d' (fun nm => (dlookup d' nm).getD 0) Q cn
    [] hin
  simp only [List.take_nil, List.nil_append, List.length_nil, Nat.sub_zero,
    Nat.zero_min, Nat.min_zero] at hfill
  have hbridge : (cn.map fun nm =>
      List.replicate ((dlookup d' nm).getD 0)
        ("a photo with a " ++ nm)).flatten = groupedTexts cn classes := by
    rw [map_eq_range_map cn _ "", groupedTexts]
    congr 1
    apply List.map_congr_left
    intro k hk
    have hklt : k < cn.length := by simpa using hk
    have hgd : cn.getD k "" = cn.get ⟨k, hklt⟩ := by
      rw [List.getD_eq_getElem?_getD, List.getElem?_eq_getElem hklt]
      rfl
    rw [hgd, hlook k hklt]
    simp
  rw [hbridge] at hfill
  refine ⟨?_, hsum, by simp [List.length_take]; omega⟩
  rw [get_texts]
  simp only [hcount]
  rw [hfill]
  simp [hsum]

/-- C7: with the zero-initialized counter dict of lines 345-347,
`_get_texts` returns exactly `num_queries` strings: the grouped
`"a photo with a ..."` prompts (one per instance, grouped in
class-name order) truncated to `num_queries`, then `"an instance
photo"` for every remaining position. -/
theorem get_texts_spec (cn : List String) (Q : Nat) (classes : List Nat)
    (hnodup : cn.Nodup) (hrange : ∀ c ∈ classes, c < cn.length) :
    get_texts cn Q classes (cn.map fun n => (n, 0)) =
      .ok ((groupedTexts cn classes).take Q ++
        List.replicate (Q - classes.length) "an instance photo") ∧
    (groupedTexts cn classes).length = classes.length ∧
    ((groupedTexts cn classes).take Q ++
      List.replicate (Q - classes.length) "an instance photo").length = Q :=
  get_texts_full cn Q classes hnodup hrange

/-- Witness for C7 at a concrete input: classes `[1, 0, 1]` over class
names `["cat", "dog"]` with 3 queries. -/
theorem get_texts_spec_witness :
    get_texts ["cat", "dog"] 3 [1, 0, 1]
        (["cat", "dog"].map fun n => (n, 0)) =
      .ok ((groupedTexts ["cat", "dog"] [1, 0, 1]).take 3 ++
        List.replicate (3 - [1, 0, 1].length) "an instance photo") :=
  (get_texts_spec ["cat", "dog"] 3 [1, 0, 1] (by decide) (by decide)).1

/-! ## The mutable-dict model for `__call__` (lines 246-358)

Python dicts are mutable objects on a heap.  We model the top-level
dataset record as an association list of string keys to `Value`s, and
annotation dicts as heap cells addressed by `Nat`, so that
`copy.deepcopy` (line 254) and the in-place updates are explicit and
non-mutation of the caller's record is a provable statement. -/

/-- Association-list lookup, as Python `d[k]` / `d.get(k)`. -/
def alookup {κ α : Type} [DecidableEq κ] : List (κ × α) → κ → Option α
  | [], _ => none
  | (k, v) :: rest, key => if k = key then some v else alookup rest key

/-- Association-list update `d[k] = v`: replace the first binding of
`k`, or append a new one (Python dicts append new keys at the end). -/
def aset {κ α : Type} [DecidableEq κ] : List (κ × α) → κ → α → List (κ × α)
  | [], key, v => [(key, v)]
  | (k, v0) :: rest, key, v =>
    if k = key then (k, v) :: rest else (k, v0) :: aset rest key v

/-- Association-list removal `d.pop(k, None)`. -/
def aremove {κ α : Type} [DecidableEq κ] : List (κ × α) → κ → List (κ × α)
  | [], _ => []
  | (k, v) :: rest, key =>
    if k = key then rest else (k, v) :: aremove rest key

/-- A numpy image: shape `(h, w, c)` with flat pixel data. -/
structure Image where
  h : Nat
  w : Nat
  c : Nat
  data : List Int
deriving Repr, DecidableEq

/-- The mask container of a detectron2 `Instances`: polygon masks (what
`annotations_to_instances` builds from `segmentation` polygons, whose
`.polygons` is read at line 341) or a bit-mask tensor (what line 342
stores). -/
inductive GtMasks where
  | polygonMasks (polys : List (List Poly))
  | bitMasks (t : Tensor3)
deriving Repr, DecidableEq

/-- A detectron2 `Instances` object with the fields the file touches.
`gt_masks` is optional because `hasattr(instances, 'gt_masks')` is
tested at line 339; `gt_classes` holds contiguous class indices. -/
structure Instances where
  image_size : Nat × Nat
  gt_classes : List Nat
  gt_boxes : List BBoxR
  gt_masks : Option GtMasks
deriving Repr, DecidableEq

/-- The values a dataset-record dict can hold.  `vImageTensor` is the
`torch.as_tensor(image.transpose(2, 0, 1))` of line 295 (shape
`(c, h, w)` plus pixel data); `vMaskTensor` the boolean padding-mask
tensor of line 296; `vAnnoRefs` a list of references to annotation
dicts; `vOther` any input value the mapper does not interpret. -/
inductive Value where
  | vStr (s : String)
  | vNat (n : Nat)
  | vImageTensor (shape : Nat × Nat × Nat) (data : List Int)
  | vMaskTensor (m : Mask)
  | vAnnoRefs (addrs : List Nat)
  | vInstances (ins : Instances)
  | vShape (hw : Nat × Nat)
  | vTexts (ts : List String)
  | vInts (xs : List Int)
  | vOther (tag : Nat)
deriving Repr, DecidableEq

/-- A dataset-record dict. -/
abbrev Dict := List (String × Value)

/-- The heap: record dicts and annotation dicts with their allocation
counters. -/
structure Heap where
  recs : List (Nat × Dict)
  annos : List (Nat × AnnoDict)
  nextR : Nat
  nextA : Nat
deriving Repr, DecidableEq

/-- Well-formedness: every allocated address is below its counter. -/
def Heap.WF (σ : Heap) : Prop :=
  (∀ p ∈ σ.recs, p.1 < σ.nextR) ∧ ∀ p ∈ σ.annos, p.1 < σ.nextA

instance (σ : Heap) : Decidable σ.WF := by
  unfold Heap.WF
  infer_instance

/-- Allocate a record dict at the next fresh address. -/
def allocRec (σ : Heap) (d : Dict) : Heap × Nat :=
  ({ σ with recs := σ.recs ++ [(σ.nextR, d)], nextR := σ.nextR + 1 },
   σ.nextR)

/-- Overwrite the record dict at an address. -/
def writeRec (σ : Heap) (a : Nat) (d : Dict) : Heap :=
  { σ with recs := aset σ.recs a d }

/-- Overwrite the annotation dict at an address. -/
def writeAnno (σ : Heap) (a : Nat) (an : AnnoDict) : Heap :=
  { σ with annos := aset σ.annos a an }

/-- Allocate a list of annotation dicts at consecutive fresh
addresses, returning the new heap and the addresses. -/
def allocAnnos : Heap → List AnnoDict → Heap × List Nat
  | σ, [] => (σ, [])
  | σ, a :: rest =>
    let addr := σ.nextA
    let σ1 : Heap :=
      { σ with annos := σ.annos ++ [(addr, a)], nextA := addr + 1 }
    let p := allocAnnos σ1 rest
    (p.1, addr :: p.2)

/-- Dereference a list of annotation addresses. -/
def fetchAnnos (σ : Heap) : List Nat → Option (List AnnoDict)
  | [] => some []
  | a :: rest =>
    match alookup σ.annos a with
    | none => none
    | some an => (fetchAnnos σ rest).map (an :: ·)

/-- `copy.deepcopy(dataset_dict)` (line 254): clone the record dict,
recursively cloning the annotation dicts it references so that later
in-place updates cannot reach the caller's objects. -/
def deepcopyRecord (σ : Heap) (r : Nat) : Option (Heap × Nat) :=
  match alookup σ.recs r with
  | none => none
  | some d =>
    match alookup d "annotations" with
    | some (.vAnnoRefs as) =>
      match fetchAnnos σ as with
      | none => none
      | some anns =>
        let p := allocAnnos σ anns
        let q := allocRec p.1 (aset d "annotations" (.vAnnoRefs p.2))
        some (q.1, q.2)
    | _ =>
      let q := allocRec σ d
      some (q.1, q.2)

/-- `detection_utils.check_image_size` (line 256), height part: modelled
from the library's behaviour — compare a present `"height"` entry with
the loaded image and raise on mismatch, record it when absent. -/
def checkHeight (d : Dict) (img : Image) : Except PyErr Dict :=
  match alookup d "height" with
  | some (.vNat hh) => if hh ≠ img.h then .error .sizeMismatch else .ok d
  | some _ => .error .sizeMismatch
  | none => .ok (aset d "height" (.vNat img.h))

/-- `detection_utils.check_image_size` (line 256): width then height. -/
def check_image_size (d : Dict) (img : Image) : Except PyErr Dict :=
  match alookup d "width" with
  | some (.vNat ww) =>
      if ww ≠ img.w then .error .sizeMismatch else checkHeight d img
  | some _ => .error .sizeMismatch
  | none => checkHeight (aset d "width" (.vNat img.w)) img

/-- The observable part of the `transforms` object returned by
`T.apply_transform_gens` (line 269): its `apply_segmentation` (used on
the padding mask at line 287). -/
abbrev Transform := Mask → Mask

/-- The external library functions `__call__` sequences, as abstract
parameters: `utils.read_image`, rasterization, `cv2.findContours`,
`BigCopyPasteAugmentation.__call__`, `T.apply_transform_gens`,
`utils.transform_instance_annotations`,
`utils.annotations_to_instances`, `get_bounding_boxes`,
`utils.filter_empty_instances`. -/
structure Lib where
  readImage : String → Image
  raster : RasterFn
  contour : ContourFn
  copyPaste : Image → List MasksOut → List (List Rat) → List Int →
    Image × List Mask × List BBoxR × List Int
  applyTfms : List Augmentation → Image → Image × Transform
  transformAnno : Transform → Nat × Nat → AnnoDict → AnnoDict
  annosToInstances : List AnnoDict → Nat × Nat → Instances
  getBoundingBoxes : GtMasks → List BBoxR
  filterEmpty : Instances → Instances

/-- The mapper's state after `__init__` (lines 161-206):
`use_big_copy_paste` is set to `True` at line 200. -/
structure Mapper where
  is_train : Bool
  num_queries : Nat
  class_names : List String
  things : List Int
  tfm_gens : List Augmentation
  use_big_copy_paste : Bool

/-- The externally visible operations of `__call__`, in the order the
claims describe them. -/
inductive Event where
  | readImage
  | convertPolys
  | copyPaste
  | applyTransforms
  | regenAnnos
deriving Repr, DecidableEq

/-- `np.ones(image.shape[:2])` (line 266) as a boolean mask. -/
def onesMask (h w : Nat) : Mask :=
  List.replicate h (List.replicate w true)

/-- Lines 254-257: deepcopy the record, read the image from
`"file_name"`, check the image size against the record, and fetch the
annotation dicts referenced by `"annotations"` (default `[]`). -/
def stage1 (lib : Lib) (σ : Heap) (r : Nat) :
    Heap × List Event × Except PyErr (Nat × Dict × Image × List AnnoDict) :=
  match deepcopyRecord σ r with
  | none => (σ, [], .error .keyError)
  | some (σ1, c) =>
    match alookup σ1.recs c with
    | none => (σ1, [], .error .keyError)
    | some dc =>
      match alookup dc "file_name" with
      | some (.vStr fn) =>
        let image := lib.readImage fn
        match check_image_size dc image with
        | .error e => (σ1, [.readImage], .error e)
        | .ok dc1 =>
          match alookup dc1 "annotations" with
          | some (.vAnnoRefs as) =>
            match fetchAnnos σ1 as with
            | none => (σ1, [.readImage], .error .keyError)
            | some annosD =>
              (writeRec σ1 c dc1, [.readImage], .ok (c, dc1, image, annosD))
          | some _ => (σ1, [.readImage], .error .valueError)
          | none =>
            (writeRec σ1 c dc1, [.readImage], .ok (c, dc1, image, []))
      | some _ => (σ1, [], .error .valueError)
      | none => (σ1, [], .error .keyError)

/-- Lines 259-269: the conditional binding of `masks`/`boxes`/
`label_dict` (lines 259-263, only when copy-paste is enabled and the
annotation list is non-empty), then the unconditional copy-paste call
(line 268) — an `UnboundLocalError` when the binding did not happen —
and the geometric transforms (line 269). -/
def stage2 (lib : Lib) (M : Mapper) (image : Image)
    (annosD : List AnnoDict) :
    List Event ×
      Except PyErr (Image × Transform × List Mask × List BBoxR × List Int) :=
  if M.use_big_copy_paste ∧ annosD ≠ [] then
    let masks := annosD.map fun a =>
      convert_coco_poly_to_mask' lib.raster a.segmentation image.h image.w
    let boxes := annosD.map (fun a => a.bbox)
    let labels := annosD.map (fun a => a.category_id)
    let q := lib.copyPaste image masks boxes labels
    let p := lib.applyTfms M.tfm_gens q.1
    ([.convertPolys, .copyPaste, .applyTransforms],
     .ok (p.1, p.2, q.2.1, q.2.2.1, q.2.2.2))
  else
    ([], .error .unboundLocal)

/-- Lines 270-285: extract polygons from the augmented masks, rebuild
the annotation dicts, allocate them on the heap, and store their
references under `"annotations"`. -/
def stage3 (σ : Heap) (c : Nat) (dc : Dict) (contourFn : ContourFn)
    (masks2 : List Mask) (boxes2 : List BBoxR) (labels2 : List Int) :
    Heap × List Event × Except PyErr (Dict × List Nat) :=
  let masksP := binary_masks_to_polygons contourFn masks2
  match regenAnnoDicts masksP boxes2 labels2 with
  | .error e => (σ, [.regenAnnos], .error e)
  | .ok newAnnos =>
    let p := allocAnnos σ newAnnos
    let dc1 := aset dc "annotations" (.vAnnoRefs p.2)
    (writeRec p.1 c dc1, [.regenAnnos], .ok (dc1, p.2))

/-- Lines 286-296: transform the all-ones padding mask and negate it
(lines 287-288), then store the image tensor and the padding-mask
tensor (lines 295-296). -/
def stage4 (dc : Dict) (image0 image2 : Image) (tfm : Transform) : Dict :=
  let pm := tfm (onesMask image0.h image0.w)
  let pm := pm.map fun row => row.map fun b => !b
  let dc1 := aset dc "image"
    (.vImageTensor (image2.c, image2.h, image2.w) image2.data)
  aset dc1 "padding_mask" (.vMaskTensor pm)

/-- Lines 321-322: `anno.pop("keypoints", None)` on each annotation
dict of the record. -/
def popKeypoints : Heap → List Nat → Heap
  | σ, [] => σ
  | σ, a :: rest =>
    match alookup σ.annos a with
    | none => popKeypoints σ rest
    | some an => popKeypoints (writeAnno σ a { an with keypoints := false }) rest

/-- Lines 345-356: build the text prompts from the instance classes
(line 350, via `_get_texts` with the zero-initialized counter dict of
lines 345-347) and store the five training outputs. -/
def stage5finish (M : Mapper) (σ : Heap) (c : Nat) (dc : Dict)
    (image_shape : Nat × Nat) (ins : Instances) : Heap × Except PyErr Nat :=
  match get_texts M.class_names M.num_queries ins.gt_classes
      (M.class_names.map fun n => (n, 0)) with
  | .error e => (σ, .error e)
  | .ok texts =>
    let dc1 := aset dc "instances" (.vInstances ins)
    let dc2 := aset dc1 "orig_shape" (.vShape image_shape)
    let dc3 := aset dc2 "task" (.vStr "The task is instance")
    let dc4 := aset dc3 "text" (.vTexts texts)
    let dc5 := aset dc4 "thing_ids" (.vInts M.things)
    (writeRec σ c dc5, .ok c)

/-- Lines 298-356: the early inference return (lines 298-301, popping
`"annotations"`), or the training pipeline — pop keypoints
(lines 321-322), filter crowd and transform the annotations
(lines 325-329), build instances (line 331), rebuild boxes from masks
(line 333, `AttributeError` when `gt_masks` is absent), filter empty
instances (line 335), convert polygon masks to bit masks
(lines 339-342, `.polygons` raises on bit masks), and store the
outputs (lines 345-356; `instances` is unbound at line 350 when the
`"annotations"` block was skipped). -/
def stage5 (lib : Lib) (M : Mapper) (σ : Heap) (c : Nat) (dc : Dict)
    (tfm : Transform) (image_shape : Nat × Nat) : Heap × Except PyErr Nat :=
  if ¬ M.is_train then
    (writeRec σ c (aremove dc "annotations"), .ok c)
  else
    match alookup dc "annotations" with
    | some (.vAnnoRefs curAs) =>
      let σ1 := popKeypoints σ curAs
      match fetchAnnos σ1 curAs with
      | none => (σ1, .error .keyError)
      | some annosD2 =>
        let dc1 := aremove dc "annotations"
        let annos2 := (annosD2.filter fun a => a.iscrowd = 0).map
          (lib.transformAnno tfm image_shape)
        let instances0 := lib.annosToInstances annos2 image_shape
        match instances0.gt_masks with
        | none => (σ1, .error .attributeError)
        | some gm =>
          let instances2 := lib.filterEmpty
            { instances0 with gt_boxes := lib.getBoundingBoxes gm }
          match instances2.gt_masks with
          | some (.polygonMasks ps) =>
            stage5finish M σ1 c dc1 image_shape
              { instances2 with gt_masks := some (.bitMasks
                  (convert_coco_poly_to_mask lib.raster ps
                    instances2.image_size.1 instances2.image_size.2)) }
          | some (.bitMasks _) => (σ1, .error .attributeError)
          | none => stage5finish M σ1 c dc1 image_shape instances2
    | _ => (σ, .error .unboundLocal)

/-- `InstanceCOCOCustomNewBaselineDatasetMapper.__call__`
(lines 246-358), assembled from the stages, with the trace of external
operations performed. -/
def call (lib : Lib) (M : Mapper) (σ : Heap) (r : Nat) :
    Heap × List Event × Except PyErr Nat :=
  match stage1 lib σ r with
  | (σ1, ev1, .error e) => (σ1, ev1, .error e)
  | (σ1, ev1, .ok (c, dc, image, annosD)) =>
    match stage2 lib M image annosD with
    | (ev2, .error e) => (σ1, ev1 ++ ev2, .error e)
    | (ev2, .ok (image2, tfm, masks2, boxes2, labels2)) =>
      match stage3 σ1 c dc lib.contour masks2 boxes2 labels2 with
      | (σ2, ev3, .error e) => (σ2, ev1 ++ ev2 ++ ev3, .error e)
      | (σ2, ev3, .ok (dc1, _newAs)) =>
        let dc2 := stage4 dc1 image image2 tfm
        let p := stage5 lib M σ2 c dc2 tfm (image2.h, image2.w)
        (p.1, ev1 ++ ev2 ++ ev3, p.2)

/-! ## Association-list and heap lemmas -/

theorem alookup_aset_self {κ α : Type} [DecidableEq κ] :
    ∀ (l : List (κ × α)) (key : κ) (v : α),
      alookup (aset l key v) key = some v
  | [], key, v => by simp [aset, alookup]
  | (k, v0) :: rest, key, v => by
    by_cases hk : k = key
    · subst hk; simp [aset, alookup]
    · simp [aset, alookup, hk, alookup_aset_self rest key v]

theorem alookup_aset_ne {κ α : Type} [DecidableEq κ] :
    ∀ (l : List (κ × α)) (key b : κ) (v : α), b ≠ key →
      alookup (aset l key v) b = alookup l b
  | [], key, b, v => by
    intro hb
    simp [aset, alookup, Ne.symm hb]
  | (k, v0) :: rest, key, b, v => by
    intro hb
    by_cases hk : k = key
    · subst hk
      simp [aset, alookup, Ne.symm hb]
    · rw [show aset ((k, v0) :: rest) key v = (k, v0) :: aset rest key v by
        simp [aset, hk]]
      by_cases hkb : k = b
      · subst hkb; simp [alookup]
      · simp [alookup, hkb, alookup_aset_ne rest key b v hb]

theorem alookup_aremove_ne {κ α : Type} [DecidableEq κ] :
    ∀ (l : List (κ × α)) (key b : κ), b ≠ key →
      alookup (aremove l key) b = alookup l b
  | [], key, b => by intro _; simp [aremove]
  | (k, v0) :: rest, key, b => by
    intro hb
    by_cases hk : k = key
    · subst hk
      simp [aremove, alookup, Ne.symm hb]
    · rw [show aremove ((k, v0) :: rest) key = (k, v0) :: aremove rest key by
        simp [aremove, hk]]
      by_cases hkb : k = b
      · subst hkb; simp [alookup]
      · simp [alookup, hkb, alookup_aremove_ne rest key b hb]

theorem alookup_none_of_not_mem_keys {κ α : Type} [DecidableEq κ] :
    ∀ (l : List (κ × α)) (b : κ), b ∉ l.map Prod.fst →
      alookup l b = none
  | [], b => by intro _; simp [alookup]
  | (k, v0) :: rest, b => by
    intro hb
    simp only [List.map_cons, List.mem_cons] at hb
    push_neg at hb
    simp [alookup, Ne.symm hb.1, alookup_none_of_not_mem_keys rest b hb.2]

theorem keys_aset_subset {κ α : Type} [DecidableEq κ] :
    ∀ (l : List (κ × α)) (key x : κ) (v : α),
      x ∈ (aset l key v).map Prod.fst → x ∈ l.map Prod.fst ∨ x = key
  | [], key, x, v => by
    intro hx
    simp [aset] at hx
    exact Or.inr hx
  | (k, v0) :: rest, key, x, v => by
    intro hx
    by_cases hk : k = key
    · subst hk
      simp only [aset, if_pos rfl, List.map_cons] at hx
      exact Or.inl (by simpa using hx)
    · simp only [aset, if_neg hk, List.map_cons, List.mem_cons] at hx
      rcases hx with hx | hx
      · exact Or.inl (by simp [hx])
      · rcases keys_aset_subset rest key x v hx with h | h
        · exact Or.inl (by simp [h])
        · exact Or.inr h

theorem keys_aset_nodup {κ α : Type} [DecidableEq κ] :
    ∀ (l : List (κ × α)) (key : κ) (v : α),
      (l.map Prod.fst).Nodup → ((aset l key v).map Prod.fst).Nodup
  | [], key, v => by intro _; simp [aset]
  | (k, v0) :: rest, key, v => by
    intro hnd
    simp only [List.map_cons, List.nodup_cons] at hnd
    by_cases hk : k = key
    · subst hk
      simpa [aset] using hnd
    · simp only [aset, if_neg hk, List.map_cons, List.nodup_cons]
      refine ⟨?_, keys_aset_nodup rest key v hnd.2⟩
      intro hmem
      rcases keys_aset_subset rest key k v hmem with h | h
      · exact hnd.1 h
      · exact hk h

theorem alookup_aremove_self {κ α : Type} [DecidableEq κ] :
    ∀ (l : List (κ × α)) (key : κ), (l.map Prod.fst).Nodup →
      alookup (aremove l key) key = none
  | [], key => by intro _; simp [aremove, alookup]
  | (k, v0) :: rest, key => by
    intro hnd
    simp only [List.map_cons, List.nodup_cons] at hnd
    by_cases hk : k = key
    · subst hk
      simp only [aremove, if_pos rfl]
      exact alookup_none_of_not_mem_keys rest k hnd.1
    · simp [aremove, alookup, hk, alookup_aremove_self rest key hnd.2]

theorem alookup_append {κ α : Type} [DecidableEq κ] :
    ∀ (l l' : List (κ × α)) (b : κ),
      alookup (l ++ l') b =
        match alookup l b with
        | some v => some v
        | none => alookup l' b
  | [], l', b => by simp [alookup]
  | (k, v0) :: rest, l', b => by
    by_cases hk : k = b <;>
      simp [alookup, hk, alookup_append rest l' b]

theorem alookup_mem {κ α : Type} [DecidableEq κ] :
    ∀ (l : List (κ × α)) (b : κ) (v : α),
      alookup l b = some v → (b, v) ∈ l
  | [], b, v => by simp [alookup]
  | (k, v0) :: rest, b, v => by
    intro h
    by_cases hk : k = b
    · subst hk
      have hv : v0 = v := by simpa [alookup] using h
      subst hv
      simp
    · simp only [alookup, if_neg hk] at h
      exact List.mem_cons_of_mem _ (alookup_mem rest b v h)

theorem alookup_none_of_ge {α : Type} (n : Nat) :
    ∀ (l : List (Nat × α)) (b : Nat), (∀ p ∈ l, n ≤ p.1) → b < n →
      alookup l b = none
  | [], b => by intro _ _; simp [alookup]
  | (k, v0) :: rest, b => by
    intro hge hb
    have hk : n ≤ k := hge (k, v0) (by simp)
    have : k ≠ b := by omega
    simp [alookup, this,
      alookup_none_of_ge n rest b (fun p hp => hge p (by simp [hp])) hb]

theorem alookup_none_of_lt {α : Type} (n : Nat) :
    ∀ (l : List (Nat × α)) (b : Nat), (∀ p ∈ l, p.1 < n) → n ≤ b →
      alookup l b = none
  | [], b => by intro _ _; simp [alookup]
  | (k, v0) :: rest, b => by
    intro hlt hb
    have hk : k < n := hlt (k, v0) (by simp)
    have : k ≠ b := by omega
    simp [alookup, this,
      alookup_none_of_lt n rest b (fun p hp => hlt p (by simp [hp])) hb]

/-- `allocAnnos` appends fresh cells: records and counters behave as
expected, existing lookups below the old counter are unchanged, and the
returned addresses are exactly the consecutive fresh ones. -/
theorem allocAnnos_spec :
    ∀ (as : List AnnoDict) (σ : Heap),
      (allocAnnos σ as).1.recs = σ.recs ∧
      (allocAnnos σ as).1.nextR = σ.nextR ∧
      (allocAnnos σ as).1.nextA = σ.nextA + as.length ∧
      (∀ b, b < σ.nextA →
        alookup (allocAnnos σ as).1.annos b = alookup σ.annos b) ∧
      (allocAnnos σ as).2 = List.range' σ.nextA as.length
  | [], σ => by simp [allocAnnos]
  | a :: rest, σ => by
    obtain ⟨h1, h2, h3, h4, h5⟩ := allocAnnos_spec rest
      { σ with annos := σ.annos ++ [(σ.nextA, a)], nextA := σ.nextA + 1 }
    simp only [allocAnnos]
    refine ⟨h1, h2, ?_, ?_, ?_⟩
    · rw [h3]
      show σ.nextA + 1 + rest.length = σ.nextA + (a :: rest).length
      simp only [List.length_cons]
      omega
    · intro b hb
      rw [h4 b (show b < σ.nextA + 1 by omega)]
      show alookup (σ.annos ++ [(σ.nextA, a)]) b = alookup σ.annos b
      rw [alookup_append]
      have hone : alookup [(σ.nextA, a)] b = none := by
        have : σ.nextA ≠ b := by omega
        simp [alookup, this]
      cases hσ : alookup σ.annos b <;> simp [hσ, hone]
    · rw [h5]
      show σ.nextA :: List.range' (σ.nextA + 1) rest.length =
        List.range' σ.nextA (a :: rest).length
      simp only [List.length_cons, List.range'_succ]

/-- The freshly allocated annotation cells dereference to the
allocated dicts. -/
theorem allocAnnos_fetch :
    ∀ (as : List AnnoDict) (σ : Heap), (∀ p ∈ σ.annos, p.1 < σ.nextA) →
      fetchAnnos (allocAnnos σ as).1 (allocAnnos σ as).2 = some as
  | [], σ => by intro _; simp [allocAnnos, fetchAnnos]
  | a :: rest, σ => by
    intro hWFa
    set σ1 : Heap :=
      { σ with annos := σ.annos ++ [(σ.nextA, a)], nextA := σ.nextA + 1 }
      with hσ1
    have hWFa1 : ∀ p ∈ σ1.annos, p.1 < σ1.nextA := by
      intro p hp
      simp only [hσ1, List.mem_append, List.mem_singleton] at hp
      rcases hp with hp | hp
      · have := hWFa p hp
        rw [hσ1]
        show p.1 < σ.nextA + 1
        omega
      · subst hp
        rw [hσ1]
        show σ.nextA < σ.nextA + 1
        omega
    obtain ⟨h1, h2, h3, h4, h5⟩ := allocAnnos_spec rest σ1
    have hfetch := allocAnnos_fetch rest σ1 hWFa1
    show fetchAnnos (allocAnnos σ1 rest).1 (σ.nextA :: (allocAnnos σ1 rest).2)
      = some (a :: rest)
    rw [fetchAnnos]
    have hlook : alookup (allocAnnos σ1 rest).1.annos σ.nextA = some a := by
      rw [h4 σ.nextA (by rw [hσ1]; show σ.nextA < σ.nextA + 1; omega)]
      rw [hσ1]
      show alookup (σ.annos ++ [(σ.nextA, a)]) σ.nextA = some a
      rw [alookup_append,
        alookup_none_of_lt σ.nextA σ.annos σ.nextA hWFa (le_refl _)]
      simp [alookup]
    rw [hlook, hfetch]
    rfl

/-- `popKeypoints` touches neither the record table nor the counters. -/
theorem popKeypoints_frame :
    ∀ (curAs : List Nat) (σ : Heap),
      (popKeypoints σ curAs).recs = σ.recs ∧
      (popKeypoints σ curAs).nextR = σ.nextR ∧
      (popKeypoints σ curAs).nextA = σ.nextA
  | [], σ => by simp [popKeypoints]
  | a :: rest, σ => by
    cases h : alookup σ.annos a with
    | none => simpa [popKeypoints, h] using popKeypoints_frame rest σ
    | some an =>
      simpa [popKeypoints, h, writeAnno] using
        popKeypoints_frame rest (writeAnno σ a { an with keypoints := false })

/-- `popKeypoints` leaves any address outside the popped list alone. -/
theorem popKeypoints_lookup_notmem :
    ∀ (curAs : List Nat) (σ : Heap) (b : Nat), b ∉ curAs →
      alookup (popKeypoints σ curAs).annos b = alookup σ.annos b
  | [], σ, b => by intro _; simp [popKeypoints]
  | a :: rest, σ, b => by
    intro hb
    simp only [List.mem_cons] at hb
    push_neg at hb
    cases h : alookup σ.annos a with
    | none =>
      simpa [popKeypoints, h] using
        popKeypoints_lookup_notmem rest σ b hb.2
    | some an =>
      rw [popKeypoints, h]
      rw [popKeypoints_lookup_notmem rest _ b hb.2]
      simp [writeAnno, alookup_aset_ne _ _ _ _ hb.1]

/-- Writing one annotation cell does not change the dereference of a
list avoiding it. -/
theorem fetchAnnos_writeAnno_notmem :
    ∀ (rest : List Nat) (σ : Heap) (a : Nat) (an : AnnoDict), a ∉ rest →
      fetchAnnos (writeAnno σ a an) rest = fetchAnnos σ rest
  | [], σ, a, an => by intro _; simp [fetchAnnos]
  | b :: rest, σ, a, an => by
    intro hb
    simp only [List.mem_cons] at hb
    push_neg at hb
    rw [fetchAnnos, fetchAnnos, writeAnno]
    simp only []
    rw [alookup_aset_ne _ _ _ _ (Ne.symm hb.1),
      ← writeAnno, fetchAnnos_writeAnno_notmem rest σ a an hb.2]

/-- After popping keypoints along a duplicate-free address list, the
same list dereferences to the updated dicts. -/
theorem popKeypoints_fetch :
    ∀ (curAs : List Nat) (σ : Heap) (l : List AnnoDict), curAs.Nodup →
      fetchAnnos σ curAs = some l →
      fetchAnnos (popKeypoints σ curAs) curAs =
        some (l.map fun an => { an with keypoints := false })
  | [], σ, l => by
    intro _ h
    simp only [fetchAnnos, Option.some.injEq] at h
    subst h
    simp [popKeypoints, fetchAnnos]
  | a :: rest, σ, l => by
    intro hnd h
    simp only [List.nodup_cons] at hnd
    rw [fetchAnnos] at h
    cases hla : alookup σ.annos a with
    | none => rw [hla] at h; exact absurd h (by simp)
    | some an =>
      rw [hla] at h
      cases hrest : fetchAnnos σ rest with
      | none => rw [hrest] at h; exact absurd h (by simp)
      | some lrest =>
        rw [hrest] at h
        simp at h
        subst h
        rw [popKeypoints, hla, fetchAnnos]
        set σw := writeAnno σ a { an with keypoints := false } with hσw
        have hfw : fetchAnnos σw rest = some lrest := by
          rw [hσw, fetchAnnos_writeAnno_notmem rest σ a _ hnd.1, hrest]
        have hrec := popKeypoints_fetch rest σw lrest hnd.2 hfw
        have hlook : alookup (popKeypoints σw rest).annos a =
            some { an with keypoints := false } := by
          rw [popKeypoints_lookup_notmem rest σw a hnd.1, hσw, writeAnno]
          simp only []
          exact alookup_aset_self _ _ _
        rw [hlook, hrec]
        rfl

/-- Membership in an updated association list. -/
theorem mem_aset {κ α : Type} [DecidableEq κ] :
    ∀ (l : List (κ × α)) (key : κ) (v : α) (p : κ × α),
      p ∈ aset l key v → p ∈ l ∨ p = (key, v)
  | [], key, v, p => by
    intro hp
    simp [aset] at hp
    exact Or.inr hp
  | (k, v0) :: rest, key, v, p => by
    intro hp
    by_cases hk : k = key
    · subst hk
      rw [show aset ((k, v0) :: rest) k v = (k, v) :: rest by
        simp [aset]] at hp
      rcases List.mem_cons.1 hp with h | h
      · exact Or.inr h
      · exact Or.inl (List.mem_cons_of_mem _ h)
    · rw [show aset ((k, v0) :: rest) key v = (k, v0) :: aset rest key v by
        simp [aset, hk]] at hp
      rcases List.mem_cons.1 hp with h | h
      · exact Or.inl (by simp [h])
      · rcases mem_aset rest key v p h with h2 | h2
        · exact Or.inl (List.mem_cons_of_mem _ h2)
        · exact Or.inr h2

/-- `allocAnnos` keeps the heap well-formed on the annotation side. -/
theorem allocAnnos_WF :
    ∀ (as : List AnnoDict) (σ : Heap), (∀ p ∈ σ.annos, p.1 < σ.nextA) →
      ∀ p ∈ (allocAnnos σ as).1.annos, p.1 < (allocAnnos σ as).1.nextA
  | [], σ => by
    intro h p hp
    simpa [allocAnnos] using h p (by simpa [allocAnnos] using hp)
  | a :: rest, σ => by
    intro h
    have h1 : ∀ p ∈ σ.annos ++ [(σ.nextA, a)], p.1 < σ.nextA + 1 := by
      intro p hp
      simp only [List.mem_append, List.mem_singleton] at hp
      rcases hp with hp | hp
      · have := h p hp
        omega
      · subst hp
        show σ.nextA < σ.nextA + 1
        omega
    exact allocAnnos_WF rest
      { σ with annos := σ.annos ++ [(σ.nextA, a)], nextA := σ.nextA + 1 } h1

/-- Facts about `allocRec`. -/
theorem allocRec_spec (σ : Heap) (d : Dict) :
    (allocRec σ d).2 = σ.nextR ∧
    (allocRec σ d).1.nextR = σ.nextR + 1 ∧
    (allocRec σ d).1.nextA = σ.nextA ∧
    (allocRec σ d).1.annos = σ.annos ∧
    (∀ a, a < σ.nextR →
      alookup (allocRec σ d).1.recs a = alookup σ.recs a) ∧
    ((∀ p ∈ σ.recs, p.1 < σ.nextR) →
      alookup (allocRec σ d).1.recs σ.nextR = some d) := by
  refine ⟨rfl, rfl, rfl, rfl, ?_, ?_⟩
  · intro a ha
    show alookup (σ.recs ++ [(σ.nextR, d)]) a = alookup σ.recs a
    rw [alookup_append]
    have hone : alookup [(σ.nextR, d)] a = none := by
      have : σ.nextR ≠ a := by omega
      simp [alookup, this]
    cases hσ : alookup σ.recs a <;> simp [hσ, hone]
  · intro hWFr
    show alookup (σ.recs ++ [(σ.nextR, d)]) σ.nextR = some d
    rw [alookup_append, alookup_none_of_lt σ.nextR σ.recs σ.nextR hWFr
      (le_refl _)]
    simp [alookup]

/-- Dereferencing annotation addresses only reads the annotation
table. -/
theorem fetchAnnos_congr (σ σ' : Heap) (h : σ.annos = σ'.annos) :
    ∀ (l : List Nat), fetchAnnos σ l = fetchAnnos σ' l
  | [] => by simp [fetchAnnos]
  | a :: rest => by
    rw [fetchAnnos, fetchAnnos, h, fetchAnnos_congr σ σ' h rest]

/-- `deepcopyRecord` when the record's `"annotations"` key holds
references: the copy sits at the old `nextR`, references fresh clones
of the annotation dicts, and everything previously allocated is
untouched. -/
theorem deepcopyRecord_refs_spec (σ : Heap) (r : Nat) (d0 : Dict)
    (as : List Nat) (anns : List AnnoDict)
    (hWF : σ.WF)
    (hr : alookup σ.recs r = some d0)
    (has : alookup d0 "annotations" = some (.vAnnoRefs as))
    (hfetch : fetchAnnos σ as = some anns) :
    ∃ σ1, deepcopyRecord σ r = some (σ1, σ.nextR) ∧
      alookup σ1.recs σ.nextR = some (aset d0 "annotations"
        (.vAnnoRefs (List.range' σ.nextA anns.length))) ∧
      fetchAnnos σ1 (List.range' σ.nextA anns.length) = some anns ∧
      σ1.nextR = σ.nextR + 1 ∧ σ1.nextA = σ.nextA + anns.length ∧
      (∀ a, a < σ.nextR → alookup σ1.recs a = alookup σ.recs a) ∧
      (∀ b, b < σ.nextA → alookup σ1.annos b = alookup σ.annos b) ∧
      σ1.WF := by
  obtain ⟨hWFr, hWFa⟩ := hWF
  obtain ⟨g1, g2, g3, g4, g5⟩ := allocAnnos_spec anns σ
  obtain ⟨f1, f2, f3, f4, f5, f6⟩ := allocRec_spec (allocAnnos σ anns).1
    (aset d0 "annotations" (.vAnnoRefs (allocAnnos σ anns).2))
  have hWFr' : ∀ p ∈ (allocAnnos σ anns).1.recs,
      p.1 < (allocAnnos σ anns).1.nextR := by
    rw [g1, g2]; exact hWFr
  refine ⟨(allocRec (allocAnnos σ anns).1
      (aset d0 "annotations" (.vAnnoRefs (allocAnnos σ anns).2))).1,
    ?_, ?_, ?_, ?_, ?_, ?_, ?_, ?_⟩
  · simp only [deepcopyRecord, hr, has, hfetch]
    rw [f1, g2]
  · rw [← g2, f6 hWFr', g5]
  · rw [← g5, fetchAnnos_congr _ (allocAnnos σ anns).1 f4]
    exact allocAnnos_fetch anns σ hWFa
  · rw [f2, g2]
  · rw [f3, g3]
  · intro a ha
    rw [f5 a (by rw [g2]; omega), g1]
  · intro b hb
    have : (allocRec (allocAnnos σ anns).1
        (aset d0 "annotations" (.vAnnoRefs (allocAnnos σ anns).2))).1.annos =
        (allocAnnos σ anns).1.annos := f4
    rw [this]
    exact g4 b hb
  · constructor
    · intro p hp
      show p.1 < _
      rw [f2]
      have hmem : p ∈ (allocAnnos σ anns).1.recs ++
          [((allocAnnos σ anns).1.nextR,
            aset d0 "annotations" (.vAnnoRefs (allocAnnos σ anns).2))] := hp
      simp only [List.mem_append, List.mem_singleton] at hmem
      rcases hmem with hm | hm
      · have := hWFr' p hm
        rw [g2] at this ⊢
        omega
      · rw [hm]
        show (allocAnnos σ anns).1.nextR < _
        rw [g2]
        omega
    · intro p hp
      rw [f4] at hp
      have := allocAnnos_WF anns σ hWFa p hp
      rw [f3]
      exact this

/-- `deepcopyRecord` when the record has no `"annotations"` key. -/
theorem deepcopyRecord_plain_spec (σ : Heap) (r : Nat) (d0 : Dict)
    (hWF : σ.WF)
    (hr : alookup σ.recs r = some d0)
    (has : alookup d0 "annotations" = none) :
    ∃ σ1, deepcopyRecord σ r = some (σ1, σ.nextR) ∧
      alookup σ1.recs σ.nextR = some d0 ∧
      σ1.annos = σ.annos ∧ σ1.nextA = σ.nextA ∧ σ1.nextR = σ.nextR + 1 ∧
      (∀ a, a < σ.nextR → alookup σ1.recs a = alookup σ.recs a) ∧
      σ1.WF := by
  obtain ⟨hWFr, hWFa⟩ := hWF
  obtain ⟨f1, f2, f3, f4, f5, f6⟩ := allocRec_spec σ d0
  refine ⟨(allocRec σ d0).1, ?_, f6 hWFr, f4, f3, f2, f5, ?_, ?_⟩
  · simp only [deepcopyRecord, hr, has]
    rw [f1]
  · intro p hp
    show p.1 < _
    rw [f2]
    have hmem : p ∈ σ.recs ++ [(σ.nextR, d0)] := hp
    simp only [List.mem_append, List.mem_singleton] at hmem
    rcases hmem with hm | hm
    · have := hWFr p hm; omega
    · rw [hm]; show σ.nextR < σ.nextR + 1; omega
  · intro p hp
    rw [show ((allocRec σ d0).1.annos) = σ.annos from f4] at hp
    rw [show ((allocRec σ d0).1.nextA) = σ.nextA from f3]
    exact hWFa p hp

/-- Facts about `writeRec`. -/
theorem writeRec_spec (σ : Heap) (c : Nat) (d : Dict) :
    (writeRec σ c d).annos = σ.annos ∧
    (writeRec σ c d).nextR = σ.nextR ∧
    (writeRec σ c d).nextA = σ.nextA ∧
    (∀ a, a ≠ c → alookup (writeRec σ c d).recs a = alookup σ.recs a) ∧
    alookup (writeRec σ c d).recs c = some (((alookup σ.recs c).map
      (fun _ => d)).getD d) ∧
    (c < σ.nextR → σ.WF → (writeRec σ c d).WF) := by
  refine ⟨rfl, rfl, rfl, ?_, ?_, ?_⟩
  · intro a ha
    exact alookup_aset_ne σ.recs c a d ha
  · cases hc : alookup σ.recs c <;>
      simp [writeRec, alookup_aset_self, hc]
  · intro hc hWF
    obtain ⟨hWFr, hWFa⟩ := hWF
    refine ⟨?_, hWFa⟩
    intro p hp
    rcases mem_aset σ.recs c d p hp with h | h
    · exact hWFr p h
    · rw [h]
      exact hc

/-- Any successful deep copy allocates only fresh cells: the copy is at
the old `nextR`, and every previously allocated lookup is unchanged. -/
theorem deepcopyRecord_preserves (σ : Heap) (r : Nat) (hWF : σ.WF)
    (σ1 : Heap) (c : Nat) (h : deepcopyRecord σ r = some (σ1, c)) :
    c = σ.nextR ∧ σ1.nextR = σ.nextR + 1 ∧ σ.nextA ≤ σ1.nextA ∧
    (∀ a, a < σ.nextR → alookup σ1.recs a = alookup σ.recs a) ∧
    (∀ b, b < σ.nextA → alookup σ1.annos b = alookup σ.annos b) ∧
    σ1.WF := by
  cases hd : alookup σ.recs r with
  | none =>
    rw [deepcopyRecord, hd] at h
    exact absurd h (by simp)
  | some d =>
    have catchall : ∀ (σ1' : Heap) (c' : Nat),
        (allocRec σ d).1 = σ1' → (allocRec σ d).2 = c' →
        c' = σ.nextR ∧ σ1'.nextR = σ.nextR + 1 ∧ σ.nextA ≤ σ1'.nextA ∧
        (∀ a, a < σ.nextR → alookup σ1'.recs a = alookup σ.recs a) ∧
        (∀ b, b < σ.nextA → alookup σ1'.annos b = alookup σ.annos b) ∧
        σ1'.WF := by
      intro σ1' c' h1 h2
      subst h1
      subst h2
      obtain ⟨f1, f2, f3, f4, f5, f6⟩ := allocRec_spec σ d
      obtain ⟨hWFr, hWFa⟩ := hWF
      refine ⟨f1, f2, le_of_eq f3.symm, f5, ?_, ?_, ?_⟩
      · intro b _
        rw [f4]
      · intro p hp
        show p.1 < _
        rw [f2]
        have hmem : p ∈ σ.recs ++ [(σ.nextR, d)] := hp
        simp only [List.mem_append, List.mem_singleton] at hmem
        rcases hmem with hm | hm
        · have := hWFr p hm; omega
        · rw [hm]; show σ.nextR < σ.nextR + 1; omega
      · intro p hp
        rw [show ((allocRec σ d).1.annos) = σ.annos from f4] at hp
        rw [show ((allocRec σ d).1.nextA) = σ.nextA from f3]
        exact hWFa p hp
    cases hv : alookup d "annotations" with
    | none =>
      simp only [deepcopyRecord, hd, hv, Option.some.injEq,
        Prod.mk.injEq] at h
      exact catchall σ1 c h.1 h.2
    | some val =>
      cases val
      case vAnnoRefs as =>
        cases hf : fetchAnnos σ as with
        | none =>
          simp only [deepcopyRecord, hd, hv, hf] at h
          exact absurd h (by simp)
        | some anns =>
          obtain ⟨σ1', heq, _, _, hnR, hnA, hpresR, hpresA, hWF'⟩ :=
            deepcopyRecord_refs_spec σ r d as anns hWF hd hv hf
          rw [heq] at h
          simp only [Option.some.injEq, Prod.mk.injEq] at h
          obtain ⟨rfl, rfl⟩ := h
          exact ⟨rfl, hnR, by omega, hpresR, hpresA, hWF'⟩
      all_goals
        simp only [deepcopyRecord, hd, hv, Option.some.injEq,
          Prod.mk.injEq] at h
      all_goals
        exact catchall σ1 c h.1 h.2

/-- Whatever happens inside lines 254-257, previously allocated cells
keep their contents, the counters only grow, well-formedness is kept,
and a successful result's record address is the fresh copy. -/
theorem stage1_preserves (lib : Lib) (σ : Heap) (r : Nat) (hWF : σ.WF) :
    (∀ a, a < σ.nextR →
      alookup (stage1 lib σ r).1.recs a = alookup σ.recs a) ∧
    (∀ b, b < σ.nextA →
      alookup (stage1 lib σ r).1.annos b = alookup σ.annos b) ∧
    σ.nextR ≤ (stage1 lib σ r).1.nextR ∧
    σ.nextA ≤ (stage1 lib σ r).1.nextA ∧
    (stage1 lib σ r).1.WF ∧
    ∀ c dc img anns, (stage1 lib σ r).2.2 = .ok (c, dc, img, anns) →
      c = σ.nextR ∧ c < (stage1 lib σ r).1.nextR := by
  cases hdc : deepcopyRecord σ r with
  | none =>
    simp only [stage1, hdc]
    refine ⟨by simp, by simp, le_refl _, le_refl _, hWF, ?_⟩
    intro c dc img anns hok
    exact absurd hok (by simp)
  | some p =>
    obtain ⟨σ1, c0⟩ := p
    obtain ⟨hc0, hnR, hnA, hpR, hpA, hWF1⟩ :=
      deepcopyRecord_preserves σ r hWF σ1 c0 hdc
    have err : (∀ a, a < σ.nextR →
          alookup σ1.recs a = alookup σ.recs a) ∧
        (∀ b, b < σ.nextA → alookup σ1.annos b = alookup σ.annos b) ∧
        σ.nextR ≤ σ1.nextR ∧ σ.nextA ≤ σ1.nextA ∧ σ1.WF :=
      ⟨hpR, hpA, by omega, by omega, hWF1⟩
    have wr : ∀ dcX : Dict,
        (∀ a, a < σ.nextR →
          alookup (writeRec σ1 c0 dcX).recs a = alookup σ.recs a) ∧
        (∀ b, b < σ.nextA →
          alookup (writeRec σ1 c0 dcX).annos b = alookup σ.annos b) ∧
        σ.nextR ≤ (writeRec σ1 c0 dcX).nextR ∧
        σ.nextA ≤ (writeRec σ1 c0 dcX).nextA ∧
        (writeRec σ1 c0 dcX).WF ∧
        (writeRec σ1 c0 dcX).nextR = σ.nextR + 1 := by
      intro dcX
      obtain ⟨w1, w2, w3, w4, w5, w6⟩ := writeRec_spec σ1 c0 dcX
      refine ⟨?_, ?_, ?_, ?_, ?_, ?_⟩
      · intro a ha
        rw [w4 a (by omega), hpR a ha]
      · intro b hb
        rw [w1, hpA b hb]
      · rw [w2]; omega
      · rw [w3]; omega
      · exact w6 (by omega) hWF1
      · rw [w2]; omega
    cases hdcv : alookup σ1.recs c0 with
    | none =>
      simp only [stage1, hdc, hdcv]
      exact ⟨err.1, err.2.1, err.2.2.1, err.2.2.2.1, err.2.2.2.2,
        by intro c dc img anns hok; exact absurd hok (by simp)⟩

    | some dc =>
      cases hfn : alookup dc "file_name" with
      | none =>
        simp only [stage1, hdc, hdcv, hfn]
        exact ⟨err.1, err.2.1, err.2.2.1, err.2.2.2.1, err.2.2.2.2,
          by intro c dc2 img anns hok; exact absurd hok (by simp)⟩
      | some v =>
        cases v
        case vStr fn =>
          cases hcis : check_image_size dc (lib.readImage fn) with
          | error e =>
            simp only [stage1, hdc, hdcv, hfn, hcis]
            exact ⟨err.1, err.2.1, err.2.2.1, err.2.2.2.1, err.2.2.2.2,
              by intro c dc2 img anns hok; exact absurd hok (by simp)⟩
          | ok dc1 =>
            cases hann : alookup dc1 "annotations" with
            | none =>
              simp only [stage1, hdc, hdcv, hfn, hcis, hann]
              obtain ⟨p1, p2, p3, p4, p5, p6⟩ := wr dc1
              refine ⟨p1, p2, p3, p4, p5, ?_⟩
              intro c dc2 img anns hok
              simp only [Except.ok.injEq, Prod.mk.injEq] at hok
              constructor
              · omega
              · rw [p6]; omega
            | some v2 =>
              cases v2
              case vAnnoRefs as =>
                cases hfa : fetchAnnos σ1 as with
                | none =>
                  simp only [stage1, hdc, hdcv, hfn, hcis, hann, hfa]
                  exact ⟨err.1, err.2.1, err.2.2.1, err.2.2.2.1,
                    err.2.2.2.2,
                    by intro c dc2 img anns hok; exact absurd hok (by simp)⟩
                | some annosD =>
                  simp only [stage1, hdc, hdcv, hfn, hcis, hann, hfa]
                  obtain ⟨p1, p2, p3, p4, p5, p6⟩ := wr dc1
                  refine ⟨p1, p2, p3, p4, p5, ?_⟩
                  intro c dc2 img anns hok
                  simp only [Except.ok.injEq, Prod.mk.injEq] at hok
                  constructor
                  · omega
                  · rw [p6]; omega
              all_goals
                simp only [stage1, hdc, hdcv, hfn, hcis, hann]
              all_goals
                exact ⟨err.1, err.2.1, err.2.2.1, err.2.2.2.1, err.2.2.2.2,
                  by intro c dc2 img anns hok; exact absurd hok (by simp)⟩
        all_goals
          simp only [stage1, hdc, hdcv, hfn]
        all_goals
          exact ⟨err.1, err.2.1, err.2.2.1, err.2.2.2.1, err.2.2.2.2,
            by intro c dc2 img anns hok; exact absurd hok (by simp)⟩

/-- Whatever happens inside lines 270-285, the only touched cells are
the copy's record dict and fresh annotation cells. -/
theorem stage3_preserves (σ1 : Heap) (c : Nat) (dc : Dict)
    (cf : ContourFn) (masks2 : List Mask) (boxes2 : List BBoxR)
    (labels2 : List Int) (hWF1 : σ1.WF) (hc : c < σ1.nextR) :
    (∀ a, a < σ1.nextR → a ≠ c →
      alookup (stage3 σ1 c dc cf masks2 boxes2 labels2).1.recs a =
        alookup σ1.recs a) ∧
    (∀ b, b < σ1.nextA →
      alookup (stage3 σ1 c dc cf masks2 boxes2 labels2).1.annos b =
        alookup σ1.annos b) ∧
    σ1.nextR ≤ (stage3 σ1 c dc cf masks2 boxes2 labels2).1.nextR ∧
    σ1.nextA ≤ (stage3 σ1 c dc cf masks2 boxes2 labels2).1.nextA ∧
    (stage3 σ1 c dc cf masks2 boxes2 labels2).1.WF ∧
    ∀ dc1 newAs,
      (stage3 σ1 c dc cf masks2 boxes2 labels2).2.2 = .ok (dc1, newAs) →
      (∀ a ∈ newAs, σ1.nextA ≤ a) ∧
      dc1 = aset dc "annotations" (.vAnnoRefs newAs) := by
  cases hreg : regenAnnoDicts (binary_masks_to_polygons cf masks2)
      boxes2 labels2 with
  | error e =>
    simp only [stage3, hreg]
    exact ⟨fun a _ _ => by trivial, fun b _ => by trivial, le_refl _,
      le_refl _, hWF1,
      by intro dc1 newAs hok; exact absurd hok (by simp)⟩
  | ok newAnnos =>
    obtain ⟨g1, g2, g3, g4, g5⟩ := allocAnnos_spec newAnnos σ1
    have hallocWF : (allocAnnos σ1 newAnnos).1.WF := by
      refine ⟨?_, allocAnnos_WF newAnnos σ1 hWF1.2⟩
      intro p hp
      rw [g1] at hp
      rw [g2]
      exact hWF1.1 p hp
    obtain ⟨w1, w2, w3, w4, w5, w6⟩ := writeRec_spec (allocAnnos σ1 newAnnos).1
      c (aset dc "annotations" (.vAnnoRefs (allocAnnos σ1 newAnnos).2))
    simp only [stage3, hreg]
    refine ⟨?_, ?_, ?_, ?_, ?_, ?_⟩
    · intro a _ hac
      rw [w4 a hac, g1]
    · intro b hb
      rw [w1, g4 b hb]
    · rw [w2, g2]
    · rw [w3, g3]; omega
    · exact w6 (by rw [g2]; omega) hallocWF
    · intro dc1 newAs hok
      simp only [Except.ok.injEq, Prod.mk.injEq] at hok
      obtain ⟨hdc1, hnew⟩ := hok
      subst hnew
      constructor
      · intro a ha
        rw [g5] at ha
        rw [List.mem_range'_1] at ha
        omega
      · rw [← hdc1]

/-- Lines 345-356 only touch the copy's record dict. -/
theorem stage5finish_preserves (M : Mapper) (σ3 : Heap) (c : Nat)
    (dcX : Dict) (ish : Nat × Nat) (ins : Instances) :
    (∀ a, a ≠ c →
      alookup (stage5finish M σ3 c dcX ish ins).1.recs a =
        alookup σ3.recs a) ∧
    (stage5finish M σ3 c dcX ish ins).1.annos = σ3.annos := by
  cases hgt : get_texts M.class_names M.num_queries ins.gt_classes
      (M.class_names.map fun n => (n, 0)) with
  | error e =>
    simp only [stage5finish, hgt]
    exact ⟨fun a _ => by trivial, by trivial⟩
  | ok texts =>
    simp only [stage5finish, hgt]
    obtain ⟨w1, _, _, w4, _, _⟩ := writeRec_spec σ3 c _
    exact ⟨fun a ha => w4 a ha, w1⟩

/-- Whatever happens inside lines 298-356, the only touched cells are
the copy's record dict and the annotation cells referenced by the
copy's `"annotations"` entry. -/
theorem stage5_preserves (lib : Lib) (M : Mapper) (σ2 : Heap) (c : Nat)
    (dc : Dict) (tfm : Transform) (ish : Nat × Nat) (nA : Nat)
    (hbound : ∀ as, alookup dc "annotations" = some (.vAnnoRefs as) →
      ∀ a ∈ as, nA ≤ a) :
    (∀ a, a ≠ c →
      alookup (stage5 lib M σ2 c dc tfm ish).1.recs a =
        alookup σ2.recs a) ∧
    (∀ b, b < nA →
      alookup (stage5 lib M σ2 c dc tfm ish).1.annos b =
        alookup σ2.annos b) := by
  by_cases htrain : M.is_train = true
  case neg =>
    simp only [stage5]
    rw [if_pos htrain]
    obtain ⟨w1, _, _, w4, _, _⟩ := writeRec_spec σ2 c
      (aremove dc "annotations")
    exact ⟨fun a ha => w4 a ha, fun b _ => by rw [w1]⟩
  case pos =>
    have hnot : ¬ ¬ M.is_train = true := by simp [htrain]
    cases hann : alookup dc "annotations" with
    | none =>
      simp only [stage5, if_neg hnot, hann]
      exact ⟨fun a _ => by trivial, fun b _ => by trivial⟩
    | some v =>
      cases v
      case vAnnoRefs curAs =>
        have hcur : ∀ a ∈ curAs, nA ≤ a := hbound curAs hann
        have hpopnm : ∀ b, b < nA →
            alookup (popKeypoints σ2 curAs).annos b = alookup σ2.annos b := by
          intro b hb
          apply popKeypoints_lookup_notmem
          intro hmem
          have := hcur b hmem
          omega
        obtain ⟨pf1, pf2, pf3⟩ := popKeypoints_frame curAs σ2
        cases hf : fetchAnnos (popKeypoints σ2 curAs) curAs with
        | none =>
          simp only [stage5, if_neg hnot, hann, hf]
          exact ⟨fun a _ => by rw [pf1], hpopnm⟩
        | some annosD2 =>
          simp only [stage5, if_neg hnot, hann, hf]
          split
          · exact ⟨fun a _ => by rw [pf1], hpopnm⟩
          · split
            · refine ⟨fun a ha => ?_, fun b hb => ?_⟩
              · rw [(stage5finish_preserves M _ c _ ish _).1 a ha, pf1]
              · rw [(stage5finish_preserves M _ c _ ish _).2, hpopnm b hb]
            · exact ⟨fun a _ => by rw [pf1], hpopnm⟩
            · refine ⟨fun a ha => ?_, fun b hb => ?_⟩
              · rw [(stage5finish_preserves M _ c _ ish _).1 a ha, pf1]
              · rw [(stage5finish_preserves M _ c _ ish _).2, hpopnm b hb]
      all_goals
        simp only [stage5, if_neg hnot, hann]
      all_goals
        exact ⟨fun a _ => by trivial, fun b _ => by trivial⟩

/-- Master preservation lemma: a whole `__call__` run never changes any
heap cell allocated before the call. -/
theorem call_preserves_low (lib : Lib) (M : Mapper) (σ : Heap) (r : Nat)
    (hWF : σ.WF) :
    (∀ a, a < σ.nextR →
      alookup (call lib M σ r).1.recs a = alookup σ.recs a) ∧
    (∀ b, b < σ.nextA →
      alookup (call lib M σ r).1.annos b = alookup σ.annos b) := by
  obtain ⟨s1a, s1b, s1c, s1d, s1e, s1f⟩ := stage1_preserves lib σ r hWF
  rcases h1 : stage1 lib σ r with ⟨σ1, ev1, res1⟩
  rw [h1] at s1a s1b s1c s1d s1e s1f
  dsimp only at s1a s1b s1c s1d s1e s1f
  cases res1 with
  | error e =>
    simp only [call, h1]
    exact ⟨fun a ha => s1a a ha, fun b hb => s1b b hb⟩
  | ok payload =>
    obtain ⟨c, dc, image, annosD⟩ := payload
    obtain ⟨hc, hclt⟩ := s1f c dc image annosD rfl
    rcases h2 : stage2 lib M image annosD with ⟨ev2, res2⟩
    cases res2 with
    | error e =>
      simp only [call, h1, h2]
      exact ⟨fun a ha => s1a a ha, fun b hb => s1b b hb⟩
    | ok payload2 =>
      obtain ⟨image2, tfm, masks2, boxes2, labels2⟩ := payload2
      obtain ⟨s3a, s3b, s3c, s3d, s3e, s3f⟩ :=
        stage3_preserves σ1 c dc lib.contour masks2 boxes2 labels2 s1e hclt
      rcases h3 : stage3 σ1 c dc lib.contour masks2 boxes2 labels2 with
        ⟨σ2, ev3, res3⟩
      rw [h3] at s3a s3b s3c s3d s3e s3f
      dsimp only at s3a s3b s3c s3d s3e s3f
      cases res3 with
      | error e =>
        simp only [call, h1, h2, h3]
        refine ⟨fun a ha => ?_, fun b hb => ?_⟩
        · rw [s3a a (by omega) (by omega), s1a a ha]
        · rw [s3b b (by omega), s1b b hb]
      | ok payload3 =>
        obtain ⟨dc1, newAs⟩ := payload3
        obtain ⟨hnewge, hdc1⟩ := s3f dc1 newAs rfl
        have hbound : ∀ as,
            alookup (stage4 dc1 image image2 tfm) "annotations" =
              some (.vAnnoRefs as) → ∀ a ∈ as, σ.nextA ≤ a := by
          intro as hlook a ha
          rw [stage4] at hlook
          rw [alookup_aset_ne _ _ _ _ (by decide),
            alookup_aset_ne _ _ _ _ (by decide), hdc1,
            alookup_aset_self] at hlook
          simp only [Option.some.injEq, Value.vAnnoRefs.injEq] at hlook
          subst hlook
          have := hnewge a ha
          omega
        obtain ⟨t5a, t5b⟩ := stage5_preserves lib M σ2 c
          (stage4 dc1 image image2 tfm) tfm (image2.h, image2.w)
          σ.nextA hbound
        simp only [call, h1, h2, h3]
        refine ⟨fun a ha => ?_, fun b hb => ?_⟩
        · rw [t5a a (by omega), s3a a (by omega) (by omega), s1a a ha]
        · rw [t5b b hb, s3b b (by omega), s1b b hb]

/-- C9: `__call__` never mutates the caller's record.  All
modifications go to the deep copy of line 254 and to freshly allocated
annotation dicts, so the caller's record dict and every annotation
dict that existed before the call keep their contents, whatever the
library functions, the mapper configuration, and the outcome. -/
theorem call_no_mutation (lib : Lib) (M : Mapper) (σ : Heap) (r : Nat)
    (hWF : σ.WF) :
    (∀ d0, alookup σ.recs r = some d0 →
      alookup (call lib M σ r).1.recs r = some d0) ∧
    ∀ b an, alookup σ.annos b = some an →
      alookup (call lib M σ r).1.annos b = some an := by
  obtain ⟨hr, ha⟩ := call_preserves_low lib M σ r hWF
  constructor
  · intro d0 h
    have hmem := alookup_mem σ.recs r d0 h
    have hlt : r < σ.nextR := hWF.1 (r, d0) hmem
    rw [hr r hlt, h]
  · intro b an h
    have hmem := alookup_mem σ.annos b an h
    have hlt : b < σ.nextA := hWF.2 (b, an) hmem
    rw [ha b hlt, h]

/-- Lines 254-257 on a well-formed record whose `"annotations"` entry
holds resolvable references and whose size keys are absent: the stage
succeeds, reads the image, records width and height, and hands over
the fetched annotation dicts. -/
theorem stage1_refs_ok (lib : Lib) (σ : Heap) (r : Nat) (d0 : Dict)
    (fn : String) (as : List Nat) (anns : List AnnoDict)
    (hWF : σ.WF)
    (hr : alookup σ.recs r = some d0)
    (hfn : alookup d0 "file_name" = some (.vStr fn))
    (hwdt : alookup d0 "width" = none)
    (hhgt : alookup d0 "height" = none)
    (has : alookup d0 "annotations" = some (.vAnnoRefs as))
    (hfetch : fetchAnnos σ as = some anns) :
    ∃ σ1,
      stage1 lib σ r = (σ1, [.readImage],
        .ok (σ.nextR,
          aset (aset (aset d0 "annotations"
              (.vAnnoRefs (List.range' σ.nextA anns.length)))
            "width" (.vNat (lib.readImage fn).w))
            "height" (.vNat (lib.readImage fn).h),
          lib.readImage fn, anns)) ∧
      σ1.WF ∧ σ.nextR < σ1.nextR := by
  obtain ⟨σd, hdc, hlook, hfetch2, hnR, hnA, hpresR, hpresA, hWFd⟩ :=
    deepcopyRecord_refs_spec σ r d0 as anns hWF hr has hfetch
  set refsNew := Value.vAnnoRefs (List.range' σ.nextA anns.length)
    with hrefs
  set dCopy := aset d0 "annotations" refsNew with hdCopy
  have hfn2 : alookup dCopy "file_name" = some (.vStr fn) := by
    rw [hdCopy, alookup_aset_ne _ _ _ _ (by decide), hfn]
  have hwdt2 : alookup dCopy "width" = none := by
    rw [hdCopy, alookup_aset_ne _ _ _ _ (by decide), hwdt]
  have hhgt2 : alookup (aset dCopy "width"
      (.vNat (lib.readImage fn).w)) "height" = none := by
    rw [alookup_aset_ne _ _ _ _ (by decide), hdCopy,
      alookup_aset_ne _ _ _ _ (by decide), hhgt]
  have hcis : check_image_size dCopy (lib.readImage fn) =
      .ok (aset (aset dCopy "width" (.vNat (lib.readImage fn).w))
        "height" (.vNat (lib.readImage fn).h)) := by
    simp only [check_image_size, hwdt2, checkHeight, hhgt2]
  have hann2 : alookup (aset (aset dCopy "width"
      (.vNat (lib.readImage fn).w)) "height"
      (.vNat (lib.readImage fn).h)) "annotations" = some refsNew := by
    rw [alookup_aset_ne _ _ _ _ (by decide),
      alookup_aset_ne _ _ _ _ (by decide), hdCopy, alookup_aset_self]
  have hfetch3 : fetchAnnos σd (List.range' σ.nextA anns.length) =
      some anns := hfetch2
  refine ⟨writeRec σd σ.nextR (aset (aset dCopy "width"
      (.vNat (lib.readImage fn).w)) "height"
      (.vNat (lib.readImage fn).h)), ?_, ?_, ?_⟩
  · rw [stage1, hdc]
    simp only [hlook, ← hdCopy, hfn2, hcis, hann2, hfetch3]
  · obtain ⟨w1, w2, w3, w4, w5, w6⟩ := writeRec_spec σd σ.nextR
      (aset (aset dCopy "width" (.vNat (lib.readImage fn).w))
        "height" (.vNat (lib.readImage fn).h))
    exact w6 (by omega) hWFd
  · show σ.nextR < (writeRec σd σ.nextR _).nextR
    obtain ⟨w1, w2, w3, w4, w5, w6⟩ := writeRec_spec σd σ.nextR
      (aset (aset dCopy "width" (.vNat (lib.readImage fn).w))
        "height" (.vNat (lib.readImage fn).h))
    rw [w2]
    omega

/-- Lines 254-257 on a record with no `"annotations"` key: the stage
succeeds with an empty annotation list (`dataset_dict.get` default). -/
theorem stage1_plain_ok (lib : Lib) (σ : Heap) (r : Nat) (d0 : Dict)
    (fn : String)
    (hWF : σ.WF)
    (hr : alookup σ.recs r = some d0)
    (hfn : alookup d0 "file_name" = some (.vStr fn))
    (hwdt : alookup d0 "width" = none)
    (hhgt : alookup d0 "height" = none)
    (has : alookup d0 "annotations" = none) :
    ∃ σ1,
      stage1 lib σ r = (σ1, [.readImage],
        .ok (σ.nextR,
          aset (aset d0 "width" (.vNat (lib.readImage fn).w))
            "height" (.vNat (lib.readImage fn).h),
          lib.readImage fn, [])) := by
  obtain ⟨σd, hdc, hlook, hannos, hnA, hnR, hpresR, hWFd⟩ :=
    deepcopyRecord_plain_spec σ r d0 hWF hr has
  have hhgt2 : alookup (aset d0 "width"
      (.vNat (lib.readImage fn).w)) "height" = none := by
    rw [alookup_aset_ne _ _ _ _ (by decide), hhgt]
  have hcis : check_image_size d0 (lib.readImage fn) =
      .ok (aset (aset d0 "width" (.vNat (lib.readImage fn).w))
        "height" (.vNat (lib.readImage fn).h)) := by
    simp only [check_image_size, hwdt, checkHeight, hhgt2]
  have hann2 : alookup (aset (aset d0 "width"
      (.vNat (lib.readImage fn).w)) "height"
      (.vNat (lib.readImage fn).h)) "annotations" = none := by
    rw [alookup_aset_ne _ _ _ _ (by decide),
      alookup_aset_ne _ _ _ _ (by decide), has]
  refine ⟨writeRec σd σ.nextR (aset (aset d0 "width"
      (.vNat (lib.readImage fn).w)) "height"
      (.vNat (lib.readImage fn).h)), ?_⟩
  rw [stage1, hdc]
  simp only [hlook, hfn, hcis, hann2]

/-- C8: on a record with no `"annotations"` key, or with an empty
annotations list, `__call__` does not produce a result: `masks`,
`boxes` and `label_dict` are bound only inside the conditional of
lines 259-263, so the unconditional copy-paste call of line 268 hits
unbound local variables. -/
theorem call_empty_annos_unbound (lib : Lib) (M : Mapper) (σ : Heap)
    (r : Nat) (d0 : Dict) (fn : String)
    (hWF : σ.WF)
    (hr : alookup σ.recs r = some d0)
    (hfn : alookup d0 "file_name" = some (.vStr fn))
    (hwdt : alookup d0 "width" = none)
    (hhgt : alookup d0 "height" = none)
    (hann : alookup d0 "annotations" = none ∨
      alookup d0 "annotations" = some (.vAnnoRefs [])) :
    (call lib M σ r).2.2 = .error .unboundLocal := by
  have hstage2 : stage2 lib M (lib.readImage fn) [] =
      ([], .error .unboundLocal) := by
    rw [stage2, if_neg (by simp)]
  rcases hann with hann | hann
  · obtain ⟨σ1, h1⟩ := stage1_plain_ok lib σ r d0 fn hWF hr hfn hwdt
      hhgt hann
    simp only [call, h1, hstage2]
  · obtain ⟨σ1, h1, _, _⟩ := stage1_refs_ok lib σ r d0 fn [] [] hWF hr
      hfn hwdt hhgt hann rfl
    simp only [List.length_nil] at h1
    simp only [call, h1, hstage2]

/-- Lines 259-269 with copy-paste enabled and a non-empty annotation
list: polygons are converted, copy-paste runs, then the geometric
transforms; with a length-consistent copy-paste the outputs line up. -/
theorem stage2_ok (lib : Lib) (M : Mapper) (image : Image)
    (annosD : List AnnoDict)
    (hbig : M.use_big_copy_paste = true) (hne : annosD ≠ [])
    (hcp : ∀ i m b l, ((lib.copyPaste i m b l).2.1).length ≤
        ((lib.copyPaste i m b l).2.2.1).length ∧
      ((lib.copyPaste i m b l).2.1).length ≤
        ((lib.copyPaste i m b l).2.2.2).length) :
    ∃ image2 tfm masks2 boxes2 labels2,
      stage2 lib M image annosD =
        ([.convertPolys, .copyPaste, .applyTransforms],
         .ok (image2, tfm, masks2, boxes2, labels2)) ∧
      masks2.length ≤ boxes2.length ∧ masks2.length ≤ labels2.length := by
  obtain ⟨hl1, hl2⟩ := hcp image
    (annosD.map fun a =>
      convert_coco_poly_to_mask' lib.raster a.segmentation image.h image.w)
    (annosD.map fun a => a.bbox) (annosD.map fun a => a.category_id)
  refine ⟨(lib.applyTfms M.tfm_gens (lib.copyPaste image
      (annosD.map fun a =>
        convert_coco_poly_to_mask' lib.raster a.segmentation
          image.h image.w)
      (annosD.map fun a => a.bbox)
      (annosD.map fun a => a.category_id)).1).1,
    (lib.applyTfms M.tfm_gens (lib.copyPaste image
      (annosD.map fun a =>
        convert_coco_poly_to_mask' lib.raster a.segmentation
          image.h image.w)
      (annosD.map fun a => a.bbox)
      (annosD.map fun a => a.category_id)).1).2,
    _, _, _, ?_, hl1, hl2⟩
  simp only [stage2]
  rw [if_pos ⟨hbig, hne⟩]

/-- Lines 270-285 with enough boxes and labels: the regeneration
succeeds, the new annotation dicts are allocated, and the copy's
`"annotations"` entry points at them. -/
theorem stage3_ok (σ1 : Heap) (c : Nat) (dc : Dict) (cf : ContourFn)
    (masks2 : List Mask) (boxes2 : List BBoxR) (labels2 : List Int)
    (hb : masks2.length ≤ boxes2.length)
    (hl : masks2.length ≤ labels2.length) :
    ∃ newAnnos,
      stage3 σ1 c dc cf masks2 boxes2 labels2 =
        (writeRec (allocAnnos σ1 newAnnos).1 c
          (aset dc "annotations" (.vAnnoRefs (allocAnnos σ1 newAnnos).2)),
         [.regenAnnos],
         .ok (aset dc "annotations" (.vAnnoRefs (allocAnnos σ1 newAnnos).2),
           (allocAnnos σ1 newAnnos).2)) := by
  have hlen : (binary_masks_to_polygons cf masks2).length = masks2.length :=
    by simp [binary_masks_to_polygons]
  obtain ⟨anns, heq, _, _⟩ := regenGo_spec boxes2 labels2
    (binary_masks_to_polygons cf masks2) 0 (by omega) (by omega)
  refine ⟨anns, ?_⟩
  simp only [stage3, regenAnnoDicts, heq]

/-- Lines 298-301: in inference mode the stage pops `"annotations"`
and returns the copy immediately. -/
theorem stage5_eval_ok (lib : Lib) (M : Mapper) (σ2 : Heap) (c : Nat)
    (dc : Dict) (tfm : Transform) (ish : Nat × Nat)
    (hev : M.is_train = false) :
    stage5 lib M σ2 c dc tfm ish =
      (writeRec σ2 c (aremove dc "annotations"), .ok c) := by
  simp only [stage5]
  rw [if_pos (by simp [hev])]

/-- Lines 302-356: in training mode, with resolvable annotation
references, a mask-producing `annotations_to_instances`, a
polygon-or-absent `filter_empty_instances`, in-range instance classes,
and duplicate-free class names, the stage succeeds and stores the five
training outputs on the copy. -/
theorem stage5_train_ok (lib : Lib) (M : Mapper) (σ2 : Heap) (c : Nat)
    (dc : Dict) (tfm : Transform) (ish : Nat × Nat)
    (curAs : List Nat) (l : List AnnoDict)
    (htrain : M.is_train = true)
    (hnodup : M.class_names.Nodup)
    (hann : alookup dc "annotations" = some (.vAnnoRefs curAs))
    (hndcur : curAs.Nodup)
    (hfetchcur : fetchAnnos σ2 curAs = some l)
    (hati : ∀ annos sh,
      (lib.annosToInstances annos sh).gt_masks.isSome = true)
    (hfe : ∀ ins, (lib.filterEmpty ins).gt_masks = none ∨
      ∃ ps, (lib.filterEmpty ins).gt_masks = some (.polygonMasks ps))
    (hcls : ∀ ins, ∀ k ∈ (lib.filterEmpty ins).gt_classes,
      k < M.class_names.length) :
    ∃ ins texts,
      stage5 lib M σ2 c dc tfm ish =
        (writeRec (popKeypoints σ2 curAs) c
          (aset (aset (aset (aset (aset (aremove dc "annotations")
            "instances" (.vInstances ins))
            "orig_shape" (.vShape ish))
            "task" (.vStr "The task is instance"))
            "text" (.vTexts texts))
            "thing_ids" (.vInts M.things)),
         .ok c) := by
  have hnot : ¬ ¬ M.is_train = true := by simp [htrain]
  have hfetch3 := popKeypoints_fetch curAs σ2 l hndcur hfetchcur
  simp only [stage5]
  rw [if_neg hnot]
  simp only [hann, hfetch3]
  set D2 := l.map (fun an => { an with keypoints := false }) with hD2
  set annos2 := (D2.filter fun a => a.iscrowd = 0).map
    (lib.transformAnno tfm ish) with hA2
  set ins0 := lib.annosToInstances annos2 ish with hI0
  cases hgm : ins0.gt_masks with
  | none =>
    exfalso
    have hsome := hati annos2 ish
    rw [← hI0, hgm] at hsome
    simp at hsome
  | some gm =>
    dsimp only
    rcases hfe ({ image_size := ins0.image_size,
                  gt_classes := ins0.gt_classes,
                  gt_boxes := lib.getBoundingBoxes gm,
                  gt_masks := some gm } : Instances) with hnone | ⟨ps, hps⟩
    · set ins2 := lib.filterEmpty
        ({ image_size := ins0.image_size, gt_classes := ins0.gt_classes,
           gt_boxes := lib.getBoundingBoxes gm,
           gt_masks := some gm } : Instances) with hI2
      simp only [hnone]
      have hγ := (get_texts_full M.class_names M.num_queries
        ins2.gt_classes hnodup (hcls _)).1
      refine ⟨ins2, (groupedTexts M.class_names
        ins2.gt_classes).take M.num_queries ++
        List.replicate (M.num_queries - ins2.gt_classes.length)
          "an instance photo", ?_⟩
      simp only [stage5finish, hγ]
    · set ins2 := lib.filterEmpty
        ({ image_size := ins0.image_size, gt_classes := ins0.gt_classes,
           gt_boxes := lib.getBoundingBoxes gm,
           gt_masks := some gm } : Instances) with hI2
      simp only [hps]
      have hγ := (get_texts_full M.class_names M.num_queries
        ins2.gt_classes hnodup (hcls _)).1
      refine ⟨{ ins2 with gt_masks := some (.bitMasks
        (convert_coco_poly_to_mask lib.raster ps
          ins2.image_size.1 ins2.image_size.2)) },
        (groupedTexts M.class_names
          ins2.gt_classes).take M.num_queries ++
          List.replicate (M.num_queries - ins2.gt_classes.length)
            "an instance photo", ?_⟩
      simp only [stage5finish, hγ]

/-- C10: with `is_train` false, `__call__` returns early: the result
dict contains `"image"` and `"padding_mask"` tensors but no
`"annotations"` key (popped at line 300) and none of the training-only
keys `"instances"`, `"task"`, `"text"`, `"thing_ids"` (only set after
the early return, lines 352-356), provided the input record did not
already carry them. -/
theorem call_eval_early_return (lib : Lib) (M : Mapper) (σ : Heap)
    (r : Nat) (d0 : Dict) (fn : String) (as : List Nat)
    (anns : List AnnoDict)
    (hWF : σ.WF)
    (hev : M.is_train = false)
    (hbig : M.use_big_copy_paste = true)
    (hr : alookup σ.recs r = some d0)
    (hfn : alookup d0 "file_name" = some (.vStr fn))
    (hwdt : alookup d0 "width" = none)
    (hhgt : alookup d0 "height" = none)
    (has : alookup d0 "annotations" = some (.vAnnoRefs as))
    (hfetch : fetchAnnos σ as = some anns)
    (hanne : anns ≠ [])
    (hcp : ∀ i m b l, ((lib.copyPaste i m b l).2.1).length ≤
        ((lib.copyPaste i m b l).2.2.1).length ∧
      ((lib.copyPaste i m b l).2.1).length ≤
        ((lib.copyPaste i m b l).2.2.2).length)
    (hkeys : (d0.map Prod.fst).Nodup)
    (hins : alookup d0 "instances" = none)
    (htask : alookup d0 "task" = none)
    (htext : alookup d0 "text" = none)
    (hthing : alookup d0 "thing_ids" = none) :
    ∃ σ' a dcFin,
      call lib M σ r = (σ', [.readImage, .convertPolys, .copyPaste,
        .applyTransforms, .regenAnnos], .ok a) ∧
      alookup σ'.recs a = some dcFin ∧
      (∃ sh idata, alookup dcFin "image" =
        some (.vImageTensor sh idata)) ∧
      (∃ pm, alookup dcFin "padding_mask" = some (.vMaskTensor pm)) ∧
      alookup dcFin "annotations" = none ∧
      alookup dcFin "instances" = none ∧
      alookup dcFin "task" = none ∧
      alookup dcFin "text" = none ∧
      alookup dcFin "thing_ids" = none := by
  obtain ⟨σ1, h1, hWF1, hclt⟩ := stage1_refs_ok lib σ r d0 fn as anns
    hWF hr hfn hwdt hhgt has hfetch
  obtain ⟨image2, tfm, masks2, boxes2, labels2, h2, hl1, hl2⟩ :=
    stage2_ok lib M (lib.readImage fn) anns hbig hanne hcp
  set dcS := aset (aset (aset d0 "annotations"
      (.vAnnoRefs (List.range' σ.nextA anns.length)))
      "width" (.vNat (lib.readImage fn).w))
      "height" (.vNat (lib.readImage fn).h) with hdcS
  obtain ⟨newAnnos, h3⟩ := stage3_ok σ1 σ.nextR dcS lib.contour
    masks2 boxes2 labels2 hl1 hl2
  set newAs := (allocAnnos σ1 newAnnos).2 with hnewAs
  set dc1S := aset dcS "annotations" (.vAnnoRefs newAs) with hdc1S
  set σ2 := writeRec (allocAnnos σ1 newAnnos).1 σ.nextR dc1S with hσ2
  set dc2 := stage4 dc1S (lib.readImage fn) image2 tfm with hdc2
  have h5 := stage5_eval_ok lib M σ2 σ.nextR dc2 tfm
    (image2.h, image2.w) hev
  have hkeys2 : (dc2.map Prod.fst).Nodup := by
    rw [hdc2, stage4]
    exact keys_aset_nodup _ _ _ (keys_aset_nodup _ _ _
      (keys_aset_nodup _ _ _ (keys_aset_nodup _ _ _
        (keys_aset_nodup _ _ _ (keys_aset_nodup _ _ _ hkeys)))))
  have himg2 : alookup dc2 "image" = some (.vImageTensor
      (image2.c, image2.h, image2.w) image2.data) := by
    rw [hdc2, stage4]
    rw [alookup_aset_ne _ _ _ _ (by decide), alookup_aset_self]
  have hpm2 : ∃ pm, alookup dc2 "padding_mask" =
      some (.vMaskTensor pm) := by
    rw [hdc2, stage4]
    exact ⟨_, alookup_aset_self _ _ _⟩
  have hother : ∀ k, k ≠ "image" → k ≠ "padding_mask" →
      k ≠ "annotations" → k ≠ "width" → k ≠ "height" →
      alookup dc2 k = alookup d0 k := by
    intro k h1' h2' h3' h4' h5'
    rw [hdc2, stage4]
    rw [alookup_aset_ne _ _ _ _ h2', alookup_aset_ne _ _ _ _ h1',
      hdc1S, alookup_aset_ne _ _ _ _ h3', hdcS,
      alookup_aset_ne _ _ _ _ h5', alookup_aset_ne _ _ _ _ h4',
      alookup_aset_ne _ _ _ _ h3']
  refine ⟨writeRec σ2 σ.nextR (aremove dc2 "annotations"), σ.nextR,
    aremove dc2 "annotations", ?_, ?_, ?_, ?_, ?_, ?_, ?_, ?_, ?_⟩
  · simp only [call, h1, h2, h3, h5]
    rfl
  · show alookup (aset σ2.recs σ.nextR (aremove dc2 "annotations"))
      σ.nextR = _
    rw [alookup_aset_self]
  · exact ⟨_, _, by rw [alookup_aremove_ne _ _ _ (by decide), himg2]⟩
  · obtain ⟨pm, hpm⟩ := hpm2
    exact ⟨pm, by rw [alookup_aremove_ne _ _ _ (by decide), hpm]⟩
  · exact alookup_aremove_self dc2 "annotations" hkeys2
  · rw [alookup_aremove_ne _ _ _ (by decide),
      hother "instances" (by decide) (by decide) (by decide)
        (by decide) (by decide), hins]
  · rw [alookup_aremove_ne _ _ _ (by decide),
      hother "task" (by decide) (by decide) (by decide)
        (by decide) (by decide), htask]
  · rw [alookup_aremove_ne _ _ _ (by decide),
      hother "text" (by decide) (by decide) (by decide)
        (by decide) (by decide), htext]
  · rw [alookup_aremove_ne _ _ _ (by decide),
      hother "thing_ids" (by decide) (by decide) (by decide)
        (by decide) (by decide), hthing]

/-- C1: in training mode on a record with a non-empty annotation list,
`__call__` performs, in order, the image read, the polygon-to-mask
conversion, the copy-paste augmentation, the geometric transforms and
the annotation regeneration, and returns a dict holding the `"image"`
and `"padding_mask"` tensors together with `"instances"`,
`"orig_shape"`, `"task"`, `"text"` and `"thing_ids"`. -/
theorem call_train_spec (lib : Lib) (M : Mapper) (σ : Heap)
    (r : Nat) (d0 : Dict) (fn : String) (as : List Nat)
    (anns : List AnnoDict)
    (hWF : σ.WF)
    (htrain : M.is_train = true)
    (hbig : M.use_big_copy_paste = true)
    (hnodup : M.class_names.Nodup)
    (hr : alookup σ.recs r = some d0)
    (hfn : alookup d0 "file_name" = some (.vStr fn))
    (hwdt : alookup d0 "width" = none)
    (hhgt : alookup d0 "height" = none)
    (has : alookup d0 "annotations" = some (.vAnnoRefs as))
    (hfetch : fetchAnnos σ as = some anns)
    (hanne : anns ≠ [])
    (hcp : ∀ i m b l, ((lib.copyPaste i m b l).2.1).length ≤
        ((lib.copyPaste i m b l).2.2.1).length ∧
      ((lib.copyPaste i m b l).2.1).length ≤
        ((lib.copyPaste i m b l).2.2.2).length)
    (hati : ∀ annos sh,
      (lib.annosToInstances annos sh).gt_masks.isSome = true)
    (hfe : ∀ ins, (lib.filterEmpty ins).gt_masks = none ∨
      ∃ ps, (lib.filterEmpty ins).gt_masks = some (.polygonMasks ps))
    (hcls : ∀ ins, ∀ k ∈ (lib.filterEmpty ins).gt_classes,
      k < M.class_names.length) :
    ∃ σ' a dcFin,
      call lib M σ r = (σ', [.readImage, .convertPolys, .copyPaste,
        .applyTransforms, .regenAnnos], .ok a) ∧
      alookup σ'.recs a = some dcFin ∧
      (∃ sh idata, alookup dcFin "image" =
        some (.vImageTensor sh idata)) ∧
      (∃ pm, alookup dcFin "padding_mask" = some (.vMaskTensor pm)) ∧
      (∃ ins, alookup dcFin "instances" = some (.vInstances ins)) ∧
      (∃ sh2, alookup dcFin "orig_shape" = some (.vShape sh2)) ∧
      alookup dcFin "task" = some (.vStr "The task is instance") ∧
      (∃ ts, alookup dcFin "text" = some (.vTexts ts)) ∧
      alookup dcFin "thing_ids" = some (.vInts M.things) := by
  obtain ⟨σ1, h1, hWF1, hclt⟩ := stage1_refs_ok lib σ r d0 fn as anns
    hWF hr hfn hwdt hhgt has hfetch
  obtain ⟨image2, tfm, masks2, boxes2, labels2, h2, hl1, hl2⟩ :=
    stage2_ok lib M (lib.readImage fn) anns hbig hanne hcp
  set dcS := aset (aset (aset d0 "annotations"
      (.vAnnoRefs (List.range' σ.nextA anns.length)))
      "width" (.vNat (lib.readImage fn).w))
      "height" (.vNat (lib.readImage fn).h) with hdcS
  obtain ⟨newAnnos, h3⟩ := stage3_ok σ1 σ.nextR dcS lib.contour
    masks2 boxes2 labels2 hl1 hl2
  obtain ⟨g1, g2, g3, g4, g5⟩ := allocAnnos_spec newAnnos σ1
  set newAs := (allocAnnos σ1 newAnnos).2 with hnewAs
  set dc1S := aset dcS "annotations" (.vAnnoRefs newAs) with hdc1S
  set σ2 := writeRec (allocAnnos σ1 newAnnos).1 σ.nextR dc1S with hσ2
  set dc2 := stage4 dc1S (lib.readImage fn) image2 tfm with hdc2
  have hann2 : alookup dc2 "annotations" =
      some (.vAnnoRefs newAs) := by
    rw [hdc2, stage4]
    rw [alookup_aset_ne _ _ _ _ (by decide),
      alookup_aset_ne _ _ _ _ (by decide), hdc1S, alookup_aset_self]
  have hndcur : newAs.Nodup := by
    rw [g5]
    exact List.nodup_range' _ _
  have hfetchcur : fetchAnnos σ2 newAs = some newAnnos := by
    rw [hσ2, hnewAs]
    rw [fetchAnnos_congr (writeRec (allocAnnos σ1 newAnnos).1
      σ.nextR dc1S) (allocAnnos σ1 newAnnos).1 rfl]
    exact allocAnnos_fetch newAnnos σ1 hWF1.2
  obtain ⟨ins, texts, h5⟩ := stage5_train_ok lib M σ2 σ.nextR dc2 tfm
    (image2.h, image2.w) newAs newAnnos htrain hnodup hann2 hndcur
    hfetchcur hati hfe hcls
  have himg2 : alookup dc2 "image" = some (.vImageTensor
      (image2.c, image2.h, image2.w) image2.data) := by
    rw [hdc2, stage4]
    rw [alookup_aset_ne _ _ _ _ (by decide), alookup_aset_self]
  have hpm2 : ∃ pm, alookup dc2 "padding_mask" =
      some (.vMaskTensor pm) := by
    rw [hdc2, stage4]
    exact ⟨_, alookup_aset_self _ _ _⟩
  refine ⟨writeRec (popKeypoints σ2 newAs) σ.nextR
      (aset (aset (aset (aset (aset (aremove dc2 "annotations")
        "instances" (.vInstances ins))
        "orig_shape" (.vShape (image2.h, image2.w)))
        "task" (.vStr "The task is instance"))
        "text" (.vTexts texts))
        "thing_ids" (.vInts M.things)), σ.nextR,
    aset (aset (aset (aset (aset (aremove dc2 "annotations")
      "instances" (.vInstances ins))
      "orig_shape" (.vShape (image2.h, image2.w)))
      "task" (.vStr "The task is instance"))
      "text" (.vTexts texts))
      "thing_ids" (.vInts M.things),
    ?_, ?_, ?_, ?_, ?_, ?_, ?_, ?_, ?_⟩
  · simp only [call, h1, h2, h3, h5]
    rfl
  · show alookup (aset (popKeypoints σ2 newAs).recs σ.nextR _)
      σ.nextR = _
    rw [alookup_aset_self]
  · refine ⟨(image2.c, image2.h, image2.w), image2.data, ?_⟩
    rw [alookup_aset_ne _ _ _ _ (by decide),
      alookup_aset_ne _ _ _ _ (by decide),
      alookup_aset_ne _ _ _ _ (by decide),
      alookup_aset_ne _ _ _ _ (by decide),
      alookup_aset_ne _ _ _ _ (by decide),
      alookup_aremove_ne _ _ _ (by decide), himg2]
  · obtain ⟨pm, hpm⟩ := hpm2
    refine ⟨pm, ?_⟩
    rw [alookup_aset_ne _ _ _ _ (by decide),
      alookup_aset_ne _ _ _ _ (by decide),
      alookup_aset_ne _ _ _ _ (by decide),
      alookup_aset_ne _ _ _ _ (by decide),
      alookup_aset_ne _ _ _ _ (by decide),
      alookup_aremove_ne _ _ _ (by decide), hpm]
  · refine ⟨ins, ?_⟩
    rw [alookup_aset_ne _ _ _ _ (by decide),
      alookup_aset_ne _ _ _ _ (by decide),
      alookup_aset_ne _ _ _ _ (by decide),
      alookup_aset_ne _ _ _ _ (by decide), alookup_aset_self]
  · refine ⟨(image2.h, image2.w), ?_⟩
    rw [alookup_aset_ne _ _ _ _ (by decide),
      alookup_aset_ne _ _ _ _ (by decide),
      alookup_aset_ne _ _ _ _ (by decide), alookup_aset_self]
  · rw [alookup_aset_ne _ _ _ _ (by decide),
      alookup_aset_ne _ _ _ _ (by decide), alookup_aset_self]
  · refine ⟨texts, ?_⟩
    rw [alookup_aset_ne _ _ _ _ (by decide), alookup_aset_self]
  · rw [alookup_aset_self]

/-! ## Concrete instantiations for the `__call__` witnesses -/

/-- A concrete, executable instantiation of the external library
operations, used to evaluate the `__call__` model on a small input. -/
def libTriv : Lib where
  readImage := fun _ => { h := 1, w := 1, c := 3, data := [0] }
  raster := fun _ _ _ _ _ => false
  contour := fun _ => []
  copyPaste := fun i _ _ _ => (i, [], [], [])
  applyTfms := fun _ i => (i, fun m => m)
  transformAnno := fun _ _ a => a
  annosToInstances := fun _ sh =>
    { image_size := sh, gt_classes := [], gt_boxes := [],
      gt_masks := some (.polygonMasks []) }
  getBoundingBoxes := fun _ => []
  filterEmpty := fun _ =>
    { image_size := (1, 1), gt_classes := [], gt_boxes := [],
      gt_masks := some (.polygonMasks []) }

/-- A mapper in training mode with one class. -/
def mapperTrain : Mapper :=
  { is_train := true, num_queries := 1, class_names := ["a"],
    things := [0], tfm_gens := [], use_big_copy_paste := true }

/-- The same mapper in inference mode. -/
def mapperEval : Mapper :=
  { mapperTrain with is_train := false }

/-- A concrete annotation dict. -/
def anno0 : AnnoDict :=
  { iscrowd := 0, bbox := [0, 0, 1, 1], category_id := 0,
    segmentation := [SegElem.flat [0, 0, 1, 0, 1, 1]],
    bbox_mode := .XYXY_ABS, keypoints := true }

/-- A concrete input record with one annotation reference. -/
def dict0 : Dict :=
  [("file_name", .vStr "a.png"), ("annotations", .vAnnoRefs [0])]

/-- A concrete heap holding `dict0` at record address 0 and `anno0` at
annotation address 0. -/
def heap0 : Heap :=
  { recs := [(0, dict0)], annos := [(0, anno0)], nextR := 1, nextA := 1 }

/-- An input record with no `"annotations"` key at all. -/
def dictE : Dict :=
  [("file_name", .vStr "a.png")]

/-- A heap holding only `dictE`. -/
def heapE : Heap :=
  { recs := [(0, dictE)], annos := [], nextR := 1, nextA := 0 }

/-- Witness for the training path: `__call__` on the concrete heap
performs the five operations in order and returns a record with all
the promised keys. -/
theorem call_train_spec_witness :
    ∃ σ' a dcFin,
      call libTriv mapperTrain heap0 0 = (σ', [.readImage,
        .convertPolys, .copyPaste, .applyTransforms, .regenAnnos],
        .ok a) ∧
      alookup σ'.recs a = some dcFin ∧
      (∃ sh idata, alookup dcFin "image" =
        some (.vImageTensor sh idata)) ∧
      (∃ pm, alookup dcFin "padding_mask" = some (.vMaskTensor pm)) ∧
      (∃ ins, alookup dcFin "instances" = some (.vInstances ins)) ∧
      (∃ sh2, alookup dcFin "orig_shape" = some (.vShape sh2)) ∧
      alookup dcFin "task" = some (.vStr "The task is instance") ∧
      (∃ ts, alookup dcFin "text" = some (.vTexts ts)) ∧
      alookup dcFin "thing_ids" = some (.vInts mapperTrain.things) :=
  call_train_spec libTriv mapperTrain heap0 0 dict0 "a.png" [0] [anno0]
    (by decide) rfl rfl (by decide) rfl rfl rfl rfl rfl rfl
    (List.cons_ne_nil _ _)
    (by intro i m b l; exact ⟨Nat.le.refl, Nat.le.refl⟩)
    (fun _ _ => rfl)
    (fun _ => Or.inr ⟨[], rfl⟩)
    (by intro ins k hk; simp [libTriv] at hk)

/-- Witness for the `UnboundLocalError`: `__call__` on a record without
an `"annotations"` key errors out. -/
theorem call_empty_annos_unbound_witness :
    (call libTriv mapperTrain heapE 0).2.2 =
      .error .unboundLocal :=
  call_empty_annos_unbound libTriv mapperTrain heapE 0 dictE "a.png"
    (by decide) rfl rfl rfl rfl (Or.inl rfl)

/-- Witness for non-mutation: on the concrete heap, the caller-visible
record and annotation dicts survive the call unchanged. -/
theorem call_no_mutation_witness :
    (∀ d0, alookup heap0.recs 0 = some d0 →
      alookup (call libTriv mapperTrain heap0 0).1.recs 0 = some d0) ∧
    ∀ b an, alookup heap0.annos b = some an →
      alookup (call libTriv mapperTrain heap0 0).1.annos b = some an :=
  call_no_mutation libTriv mapperTrain heap0 0 (by decide)

/-- Witness for the inference-mode early return on the concrete heap. -/
theorem call_eval_early_return_witness :
    ∃ σ' a dcFin,
      call libTriv mapperEval heap0 0 = (σ', [.readImage,
        .convertPolys, .copyPaste, .applyTransforms, .regenAnnos],
        .ok a) ∧
      alookup σ'.recs a = some dcFin ∧
      (∃ sh idata, alookup dcFin "image" =
        some (.vImageTensor sh idata)) ∧
      (∃ pm, alookup dcFin "padding_mask" = some (.vMaskTensor pm)) ∧
      alookup dcFin "annotations" = none ∧
      alookup dcFin "instances" = none ∧
      alookup dcFin "task" = none ∧
      alookup dcFin "text" = none ∧
      alookup dcFin "thing_ids" = none :=
  call_eval_early_return libTriv mapperEval heap0 0 dict0 "a.png" [0]
    [anno0] (by decide) rfl rfl rfl rfl rfl rfl rfl rfl
    (List.cons_ne_nil _ _)
    (by intro i m b l; exact ⟨Nat.le.refl, Nat.le.refl⟩)
    (by decide) rfl rfl rfl rfl

end OneformerIrseg
